import Mathlib

/-!
Verification of the ParksCensus analysis pipeline (`analysis_modules.py`,
`config.py`) against its specification.

Conventions of the shallow embedding:
* Python floats are modeled as `ℚ`; a float slot that may hold NaN is
  modeled as `Option ℚ` with `none` standing for NaN / a missing value.
* pandas Series / numpy arrays are modeled as `List`s.
* fallible operations return `Except` / `Option`.
-/

namespace ParksCensus

/-! ### Configuration constants (config.py) -/

structure HazardFactorWeights where
  CoastalFloodHaz : ℚ
  StormFloodHaz : ℚ
  HeatHaz : ℚ

/-- HAZARD_FACTOR_WEIGHTS from config.py. -/
def HAZARD_FACTOR_WEIGHTS : HazardFactorWeights := ⟨0.25, 0.50, 0.25⟩

structure VulnerabilityFactorWeights where
  HeatVuln : ℚ
  FloodVuln : ℚ

/-- VULNERABILITY_FACTOR_WEIGHTS from config.py. -/
def VULNERABILITY_FACTOR_WEIGHTS : VulnerabilityFactorWeights := ⟨0.50, 0.50⟩

structure SuitabilityWeights where
  hazard_factor : ℚ
  vul_factor : ℚ
  Inv_Norm : ℚ

/-- SUITABILITY_WEIGHTS from config.py. -/
def SUITABILITY_WEIGHTS : SuitabilityWeights := ⟨0.25, 0.25, 0.50⟩

structure CoastalWeights where
  Cst_500_nr : ℚ
  Cst_100_nr : ℚ
  StrmTid_nr : ℚ

/-- The default coastal weights of compute_flood_hazard_indices. -/
def defaultCoastalWeights : CoastalWeights := ⟨0.15, 0.35, 0.5⟩

structure StormwaterWeights where
  StrmShl_nr : ℚ
  StrmDp_nr : ℚ

/-- The default stormwater weights of compute_flood_hazard_indices. -/
def defaultStormwaterWeights : StormwaterWeights := ⟨0.3, 0.7⟩

/-! ### Worker-pool sizing (compute_raw_heat / compute_raw_flood) -/

/-- Model of `multiprocessing.Pool(processes)`: constructing a pool with
fewer than one worker process raises a ValueError. -/
def mpPool (processes : ℕ) : Except String ℕ :=
  if 1 ≤ processes then .ok processes
  else .error "Number of processes must be at least 1"

/-- Pool construction in compute_raw_heat: `mp.Pool(cpu_cnt - 1)` where
`cpu_cnt = mp.cpu_count()` (no lower bound is applied). -/
def compute_raw_heat_pool (cpu_cnt : ℕ) : Except String ℕ :=
  mpPool (cpu_cnt - 1)

/-- Worker count in compute_raw_flood: `max(1, mp.cpu_count() - 1)`. -/
def compute_raw_flood_workers (cpu_cnt : ℕ) : ℕ :=
  max 1 (cpu_cnt - 1)

/-! ### allocate_investment_by_tracker -/

/-- One row of a TrackerID group after the spatial join in
allocate_investment_by_tracker: the project's EstInvestment and the
acreage of the park it joined to. -/
structure TrackerRow where
  EstInvestment : ℚ
  acres : ℚ

/-- The allocation loop body of allocate_investment_by_tracker for one
TrackerID group: the total investment is taken from the group's first row,
and each row is assigned `total_investment * (acres / total_acres)`, with
proportion 0 when `total_acres > 0` fails. -/
def allocate_investment_by_tracker (group : List TrackerRow) : List ℚ :=
  let total_investment := (group.headD ⟨0, 0⟩).EstInvestment
  let total_acres := (group.map (·.acres)).sum
  group.map (fun row =>
    let prop := if 0 < total_acres then row.acres / total_acres else 0
    total_investment * prop)

/-! ### Flood raster model (read_raster_window / process_site_flood) -/

/-- A raster source as seen by one windowed read: its CRS (possibly
absent) and the pixel values of the requested window, flattened. -/
structure Raster where
  crs : Option String
  data : List ℕ

/-- read_raster_window: raises when the raster has a CRS and it differs
from the target CRS; otherwise returns the windowed data unmodified. -/
def read_raster_window (src : Raster) (target_crs : String) :
    Except String (List ℕ) :=
  match src.crs with
  | some c =>
      if c ≠ target_crs then
        .error "Raster CRS does not match target CRS."
      else .ok src.data
  | none => .ok src.data

structure FloodFracs where
  Cst_500_nr : ℚ
  Cst_100_nr : ℚ
  StrmShl_nr : ℚ
  StrmDp_nr : ℚ
  StrmTid_nr : ℚ
deriving DecidableEq, Repr

/-- The all-zero fraction record returned on empty geometry or any read
error. -/
def zeroFracs : FloodFracs := ⟨0, 0, 0, 0, 0⟩

/-- One park as seen by process_site_flood: whether its geometry is
None/empty, and the rasterized buffer mask over the (cropped) window
grid, flattened in the same order as the raster windows. -/
structure FloodSite where
  geomEmpty : Bool
  bufferMask : List Bool

/-- Fraction of buffer-masked pixels whose class value equals `c`:
`count(buffer_mask AND arr == c) / count(buffer_mask)`, or 0.0 when the
buffer mask has no pixels. -/
def classFrac (mask : List Bool) (arr : List ℕ) (c : ℕ) : ℚ :=
  let bsum := mask.countP id
  if bsum = 0 then 0
  else (((mask.zip arr).countP (fun p => p.1 && decide (p.2 = c)) : ℕ) : ℚ) / (bsum : ℚ)

/-- process_site_flood: empty geometry yields all-zero fractions; any
error from either windowed read is caught and yields all-zero fractions;
otherwise the two windows are cropped to their common size and the five
class fractions are computed against the buffer mask. -/
def process_site_flood (site : FloodSite) (fema storm : Raster)
    (target_crs : String) : FloodFracs :=
  if site.geomEmpty then zeroFracs
  else
    match read_raster_window fema target_crs, read_raster_window storm target_crs with
    | .ok fema_arr, .ok storm_arr =>
        let n := min fema_arr.length storm_arr.length
        let fa := fema_arr.take n
        let sa := storm_arr.take n
        let m := site.bufferMask.take n
        ⟨classFrac m fa 1, classFrac m fa 2,
         classFrac m sa 1, classFrac m sa 2, classFrac m sa 3⟩
    | _, _ => zeroFracs

/-- The five flood-fraction cells as stored into the dataframe row:
each is a plain Python float, never NaN (`some` in the Option-ℚ model of
float cells), since both the 0.0 literals and the guarded divisions of
process_site_flood produce ordinary floats. -/
def floodRawCells (site : FloodSite) (fema storm : Raster)
    (target_crs : String) : List (Option ℚ) :=
  let r := process_site_flood site fema storm target_crs
  [some r.Cst_500_nr, some r.Cst_100_nr,
   some r.StrmShl_nr, some r.StrmDp_nr, some r.StrmTid_nr]

/-! ### min_max_normalize (utility) -/

/-- Sort a list of rationals ascending (what pandas quantile does
internally to interpolate order statistics). -/
def sortRat (s : List ℚ) : List ℚ := s.mergeSort (· ≤ ·)

/-- Element of a sorted list at position `i`, clamped to the last valid
index (0 when the list is empty, matching a never-taken branch). -/
def nthClamped (s : List ℚ) (i : ℕ) : ℚ := s.getD (min i (s.length - 1)) 0

/-- Linear interpolation of a sorted list at fractional rank `h`, the
"linear" interpolation rule of pandas `Series.quantile`. -/
def interpAt (s : List ℚ) (h : ℚ) : ℚ :=
  let i : ℕ := ⌊h⌋.toNat
  let a := nthClamped s i
  let b := nthClamped s (i + 1)
  a + (h - (i : ℚ)) * (b - a)

/-- `Series.quantile(q)` with linear interpolation: interpolate the
sorted values at rank `q * (n - 1)`. -/
def seriesQuantile (s : List ℚ) (q : ℚ) : ℚ :=
  interpAt (sortRat s) (q * ((s.length - 1 : ℕ) : ℚ))

/-- `Series.clip(lower=lo, upper=hi)` elementwise. -/
def clip (lo hi x : ℚ) : ℚ := max lo (min x hi)

/-- `Series.fillna(0)`: missing values become 0. -/
def fillna0 (series : List (Option ℚ)) : List ℚ :=
  series.map (fun v => v.getD 0)

/-- The lower bound of min_max_normalize: the `p`-th percentile
(`s.quantile(p / 100)`). -/
def mmnLower (series : List (Option ℚ)) (p : ℚ) : ℚ :=
  seriesQuantile (fillna0 series) (p / 100)

/-- The upper bound of min_max_normalize: `s.quantile(1 - p / 100)`. -/
def mmnUpper (series : List (Option ℚ)) (p : ℚ) : ℚ :=
  seriesQuantile (fillna0 series) (1 - p / 100)

/-- min_max_normalize from analysis_modules.py: fill missing values with
0, find outlier-trimmed bounds at the `p` and `100 - p` percentiles, and
either map everything to the degenerate constant (0.0 when the upper
bound is 0, else 1.0) when the bounds coincide, or clip to the bounds
and rescale linearly to [0, 1]. -/
def min_max_normalize (series : List (Option ℚ)) (p : ℚ) : List ℚ :=
  if mmnUpper series p - mmnLower series p = 0 then
    (fillna0 series).map (fun _ => if mmnUpper series p = 0 then (0 : ℚ) else 1)
  else
    (fillna0 series).map (fun x =>
      (clip (mmnLower series p) (mmnUpper series p) x - mmnLower series p) /
        (mmnUpper series p - mmnLower series p))

/-! ### Heat analysis (kelvin_to_fahrenheit, distribution, percentile) -/

/-- kelvin_to_fahrenheit: `(K - 273.15) * 9/5 + 32`. -/
def kelvin_to_fahrenheit (K : ℚ) : ℚ := (K - 273.15) * 9 / 5 + 32

/-- load_raster_distribution_f: convert the raster's valid pixel values
to Fahrenheit and sort ascending. -/
def load_raster_distribution_f (pixels : List ℚ) : List ℚ :=
  sortRat (pixels.map kelvin_to_fahrenheit)

/-- The binary-search loop of `numpy.searchsorted(a, v, side='right')`:
halve `[lo, hi)` keeping the invariant that the insertion point is
inside it, moving right over elements `≤ v`. -/
def searchsortedRightGo (a : List ℚ) (v : ℚ) (lo hi : ℕ) : ℕ :=
  if lo < hi then
    if v < a.getD ((lo + hi) / 2) 0 then
      searchsortedRightGo a v lo ((lo + hi) / 2)
    else
      searchsortedRightGo a v ((lo + hi) / 2 + 1) hi
  else lo
termination_by hi - lo
decreasing_by all_goals omega

/-- `numpy.searchsorted(a, v, side='right')`. -/
def searchsorted_right (a : List ℚ) (v : ℚ) : ℕ :=
  searchsortedRightGo a v 0 a.length

/-- percentile_from_distribution: `(idx / len(distribution)) * 100`
where `idx` is the right-biased insertion index of `value`. -/
def percentile_from_distribution (value : ℚ) (distribution : List ℚ) : ℚ :=
  ((searchsorted_right distribution value : ℕ) : ℚ) / ((distribution.length : ℕ) : ℚ) * 100

/-- Python `round` to an integer: round half to even. -/
def pyRoundInt (x : ℚ) : ℤ :=
  if x - ⌊x⌋ < 1 / 2 then ⌊x⌋
  else if 1 / 2 < x - ⌊x⌋ then ⌊x⌋ + 1
  else if Even ⌊x⌋ then ⌊x⌋ else ⌊x⌋ + 1

/-- Python `round(x, 2)`: round half to even at the second decimal. -/
def round2 (x : ℚ) : ℚ := ((pyRoundInt (x * 100) : ℤ) : ℚ) / 100

/-- The per-park percentile step of compute_raw_heat: a finite raw mean
gets its percentile in the whole-raster distribution, NaN stays NaN. -/
def heat_percentile (heat_mean : Option ℚ) (distribution : List ℚ) : Option ℚ :=
  heat_mean.map (fun v => percentile_from_distribution v distribution)

/-- The heat-index step of compute_raw_heat: `round(1 - p/100, 2)` for a
finite percentile, NaN stays NaN. -/
def heat_index_of (p : Option ℚ) : Option ℚ :=
  p.map (fun q => round2 (1 - q / 100))

/-- One park as seen by extract_mean_temperature: whether its geometry
is None/empty, and the Kelvin values of the clipped raster window
(`none` when the clipped window is degenerate). -/
structure HeatSite where
  geomEmpty : Bool
  window : Option (List ℚ)

/-- extract_mean_temperature: missing for empty geometry, a degenerate
window, or an empty window; otherwise the mean of the window's pixel
values converted to Fahrenheit. -/
def extract_mean_temperature (site : HeatSite) : Option ℚ :=
  if site.geomEmpty then none
  else
    match site.window with
    | none => none
    | some px =>
        if px.length = 0 then none
        else some ((px.map kelvin_to_fahrenheit).sum / (px.length : ℚ))

/-! ### reformat_est_investment -/

/-- Python `str.strip()` on a character list (ASCII whitespace). -/
def pyStrip (cs : List Char) : List Char :=
  ((cs.dropWhile Char.isWhitespace).reverse.dropWhile Char.isWhitespace).reverse

/-- Case-insensitive literal match at the start of the input (the
behaviour of `re.match` with `re.IGNORECASE` on the literal parts of the
patterns); returns the unconsumed remainder on success. -/
def ciMatch : List Char → List Char → Option (List Char)
  | [], rest => some rest
  | _ :: _, [] => none
  | p :: ps, c :: rest =>
      if c.toLower = p.toLower then ciMatch ps rest else none

/-- Numeric value of a digit run. -/
def digitsVal (ds : List Char) : ℕ :=
  ds.foldl (fun acc c => 10 * acc + (c.toNat - '0'.toNat)) 0

/-- Greedy match of the regex group `\d+(?:\.\d+)?` at the start of the
input: one or more digits, optionally followed by a point and one or
more digits; returns the value and the unconsumed remainder. -/
def matchRegexNumber (cs : List Char) : Option (ℚ × List Char) :=
  let ds := cs.takeWhile Char.isDigit
  if ds.isEmpty then none
  else
    let rest := cs.dropWhile Char.isDigit
    match rest with
    | '.' :: rest2 =>
        let fs := rest2.takeWhile Char.isDigit
        if fs.isEmpty then some ((digitsVal ds : ℚ), rest)
        else
          some ((digitsVal ds : ℚ) + (digitsVal fs : ℚ) / (10 : ℚ) ^ fs.length,
            rest2.dropWhile Char.isDigit)
    | _ => some ((digitsVal ds : ℚ), rest)

/-- The pattern `Between \$(\d+(?:\.\d+)?) million and \$(\d+(?:\.\d+)?)
million` (IGNORECASE, matched at the start of the string). -/
def between_match (cs : List Char) : Option (ℚ × ℚ) :=
  match ciMatch "between $".toList cs with
  | none => none
  | some r1 =>
      match matchRegexNumber r1 with
      | none => none
      | some (low, r2) =>
          match ciMatch " million and $".toList r2 with
          | none => none
          | some r3 =>
              match matchRegexNumber r3 with
              | none => none
              | some (high, r4) =>
                  match ciMatch " million".toList r4 with
                  | none => none
                  | some _ => some (low, high)

/-- The pattern `(Less than|Greater than) \$(\d+(?:\.\d+)?) million`
(IGNORECASE, matched at the start of the string). -/
def lt_gt_match (cs : List Char) : Option ℚ :=
  let afterQualifier :=
    match ciMatch "less than $".toList cs with
    | some r => some r
    | none => ciMatch "greater than $".toList cs
  match afterQualifier with
  | none => none
  | some r1 =>
      match matchRegexNumber r1 with
      | none => none
      | some (num, r2) =>
          match ciMatch " million".toList r2 with
          | none => none
          | some _ => some num

/-- Exponent suffix of a Python float literal (`e`/`E`, optional sign,
digits), requiring full consumption of the input. -/
def parseExpPart (m : ℚ) (cs : List Char) : Option ℚ :=
  match cs with
  | [] => some m
  | c :: r =>
      if c = 'e' ∨ c = 'E' then
        let signAndRest : ℤ × List Char :=
          match r with
          | '+' :: t => (1, t)
          | '-' :: t => (-1, t)
          | t => (1, t)
        let ds := signAndRest.2.takeWhile Char.isDigit
        let r3 := signAndRest.2.dropWhile Char.isDigit
        if ds.isEmpty ∨ ¬ r3.isEmpty then none
        else some (m * (10 : ℚ) ^ (signAndRest.1 * (digitsVal ds : ℤ)))
      else none

/-- Python `float(s)` on finite decimal/exponent literals: optional
surrounding whitespace, optional sign, digits with an optional point
(at least one digit overall), optional exponent.  (The `inf`/`nan`
word forms, not exercised by this pipeline's data, are not modeled.) -/
def pyFloat (cs0 : List Char) : Option ℚ :=
  let cs1 := pyStrip cs0
  let signAndRest : (ℚ → ℚ) × List Char :=
    match cs1 with
    | '+' :: r => (id, r)
    | '-' :: r => (fun x => -x, r)
    | r => (id, r)
  let cs := signAndRest.2
  let ip := cs.takeWhile Char.isDigit
  let rest := cs.dropWhile Char.isDigit
  match rest with
  | '.' :: r2 =>
      let fp := r2.takeWhile Char.isDigit
      let r3 := r2.dropWhile Char.isDigit
      if ip.isEmpty ∧ fp.isEmpty then none
      else
        parseExpPart
          (signAndRest.1 ((digitsVal ip : ℚ) + (digitsVal fp : ℚ) / (10 : ℚ) ^ fp.length)) r3
  | r2 =>
      if ip.isEmpty then none
      else parseExpPart (signAndRest.1 (digitsVal ip : ℚ)) r2

/-- The pattern `\$(.*)` of reformat_est_investment: a leading dollar
sign captures the whole remainder, which is comma-stripped and passed to
`float`. -/
def dollar_match (cs : List Char) : Option ℚ :=
  match cs with
  | '$' :: rest => pyFloat (rest.filter (fun c => c ≠ ','))
  | _ => none

/-- reformat_est_investment: `none` (NaN) for a null input; otherwise
strip, then try in order the Between pattern (midpoint of the two
numbers times 1e6), the Less-than/Greater-than pattern (the number times
1e6), and a leading `$` (float of the remainder with commas removed,
NaN on a failed conversion); anything else is NaN. -/
def reformat_est_investment (value : Option String) : Option ℚ :=
  match value with
  | none => none
  | some v =>
      let cs := pyStrip v.toList
      match between_match cs with
      | some (low, high) => some ((low + high) / 2 * 1000000)
      | none =>
          match lt_gt_match cs with
          | some num => some (num * 1000000)
          | none => dollar_match cs

/-! ### area_weighted_average -/

/-- One candidate feature row as seen by area_weighted_average:
whether its geometry is None/empty; the area of its intersection with
the buffer (`none` when the intersection is empty); and the target
attribute cell — `none` when the row lacks the field entirely,
`some none` when the field's value fails float coercion, and
`some (some v)` for a coercible value `v`. -/
structure VFeature where
  geomEmpty : Bool
  inter : Option ℚ
  field : Option (Option ℚ)

/-- The value used by area_weighted_average for a row:
`float(row.get(field_name, 0))` — a missing field defaults to 0 (which
coerces), a present field may fail coercion (`none`). -/
def vfeatureValue (f : VFeature) : Option ℚ :=
  match f.field with
  | none => some 0
  | some o => o

/-- The fold step of area_weighted_average's loop, accumulating
`(weighted_sum, total_area)`: skip empty geometries, empty
intersections, and failed coercions; otherwise add `value * area` and
`area`. -/
def awaStep (acc : ℚ × ℚ) (f : VFeature) : ℚ × ℚ :=
  if f.geomEmpty then acc
  else
    match f.inter with
    | none => acc
    | some area =>
        match vfeatureValue f with
        | none => acc
        | some value => (acc.1 + value * area, acc.2 + area)

/-- area_weighted_average: fold the candidate rows and return
`weighted_sum / total_area`, or NaN when the total area is not
positive. -/
def area_weighted_average (features : List VFeature) : Option ℚ :=
  let acc := features.foldl awaStep (0, 0)
  if 0 < acc.2 then some (acc.1 / acc.2) else none

/-! ### Vulnerability raws and investment aggregation -/

/-- Per-site raw HVI of compute_raw_heat_vulnerability: NaN for an
empty geometry, else the area-weighted average of the candidate HVI
rows. -/
def hviRawOfSite (geomEmpty : Bool) (candidates : List VFeature) : Option ℚ :=
  if geomEmpty then none else area_weighted_average candidates

/-- pandas `DataFrame.mean(axis=1)` over two cells (NaN skipped; NaN
only when both cells are NaN), used for flood_vuln. -/
def rowMean2 (a b : Option ℚ) : Option ℚ :=
  match a, b with
  | none, none => none
  | some x, none => some x
  | none, some y => some y
  | some x, some y => some ((x + y) / 2)

/-- A park's EstInvTotal cell after aggregate_cap_proj_to_parks:
`none` matched projects means the merge produced NaN, filled with 0;
otherwise the pandas sum of the allocated amounts (NaN skipped). -/
def est_inv_total_cell (matched : Option (List (Option ℚ))) : ℚ :=
  match matched with
  | none => 0
  | some l => (l.filterMap id).sum

/-! ### Index composition (compute_flood_hazard_indices / run_analysis) -/

/-- coastal_raw of compute_flood_hazard_indices. -/
def coastal_raw_of (w : CoastalWeights) (f : FloodFracs) : ℚ :=
  w.Cst_500_nr * f.Cst_500_nr + w.Cst_100_nr * f.Cst_100_nr + w.StrmTid_nr * f.StrmTid_nr

/-- storm_raw of compute_flood_hazard_indices. -/
def storm_raw_of (w : StormwaterWeights) (f : FloodFracs) : ℚ :=
  w.StrmShl_nr * f.StrmShl_nr + w.StrmDp_nr * f.StrmDp_nr

/-- hazard_factor of run_analysis; NaN (from a NaN heat index)
propagates. -/
def hazard_factor_of (w : HazardFactorWeights) (coastal storm : ℚ)
    (heat : Option ℚ) : Option ℚ :=
  heat.map (fun h => w.CoastalFloodHaz * coastal + w.StormFloodHaz * storm + w.HeatHaz * h)

/-- vul_factor of run_analysis. -/
def vul_factor_of (w : VulnerabilityFactorWeights) (hv fv : ℚ) : ℚ :=
  w.HeatVuln * hv + w.FloodVuln * fv

/-- suitability of run_analysis; NaN (from a NaN hazard_factor)
propagates. -/
def suitability_of (w : SuitabilityWeights) (hf : Option ℚ) (vf inv : ℚ) : Option ℚ :=
  hf.map (fun h => w.hazard_factor * h + w.vul_factor * vf + w.Inv_Norm * (1 - inv))

/-- One park's inputs to the final composition stage of run_analysis. -/
structure ParkInput where
  EstInvTotal : ℚ
  floodSite : FloodSite
  heat_mean : Option ℚ
  hvi_area : Option ℚ
  flood_vuln : Option ℚ

instance : Inhabited ParkInput := ⟨⟨0, ⟨true, []⟩, none, none, none⟩⟩

/-- One park's computed index columns in the output table. -/
structure ParkOutput where
  HeatHaz : Option ℚ
  CoastalFloodHaz : ℚ
  StormFloodHaz : ℚ
  HeatVuln : ℚ
  FloodVuln : ℚ
  Inv_Norm : ℚ
  hazard_factor : Option ℚ
  vul_factor : ℚ
  suitability : Option ℚ
deriving DecidableEq, Repr

instance : Inhabited ParkOutput := ⟨⟨none, 0, 0, 0, 0, 0, none, 0, none⟩⟩

/-- The per-row computations of run_analysis: flood fractions and the
two flood hazard indices, the heat index from the whole-raster
distribution, and the composed hazard/vulnerability/suitability scores,
given the park's already-normalized Inv_Norm / HeatVuln / FloodVuln. -/
def composeRow (distribution : List ℚ) (fema storm : Raster) (target_crs : String)
    (p : ParkInput) (inv hv fv : ℚ) : ParkOutput :=
  let fracs := process_site_flood p.floodSite fema storm target_crs
  let coastal := 1 - coastal_raw_of defaultCoastalWeights fracs
  let stormIdx := 1 - storm_raw_of defaultStormwaterWeights fracs
  let heatIdx := heat_index_of (heat_percentile p.heat_mean distribution)
  let hf := hazard_factor_of HAZARD_FACTOR_WEIGHTS coastal stormIdx heatIdx
  let vf := vul_factor_of VULNERABILITY_FACTOR_WEIGHTS hv fv
  { HeatHaz := heatIdx
    CoastalFloodHaz := coastal
    StormFloodHaz := stormIdx
    HeatVuln := hv
    FloodVuln := fv
    Inv_Norm := inv
    hazard_factor := hf
    vul_factor := vf
    suitability := suitability_of SUITABILITY_WEIGHTS hf vf inv }

/-- run_analysis, final stage: normalize the EstInvTotal / hvi_area /
flood_vuln columns over the whole table, compute the heat distribution
once from the whole raster, then compose every row. -/
def run_analysis (parks : List ParkInput) (heatPixels : List ℚ)
    (fema storm : Raster) (target_crs : String) : List ParkOutput :=
  let distribution := load_raster_distribution_f heatPixels
  let inv := min_max_normalize (parks.map (fun p => some p.EstInvTotal)) 5
  let hv := min_max_normalize (parks.map (fun p => p.hvi_area)) 5
  let fv := min_max_normalize (parks.map (fun p => p.flood_vuln)) 5
  List.zipWith
    (fun (p : ParkInput) (t : ℚ × ℚ × ℚ) =>
      composeRow distribution fema storm target_crs p t.1 t.2.1 t.2.2)
    parks (inv.zip (hv.zip fv))

/-! ### Helper lemmas -/

/-- awaStep from an arbitrary accumulator is the step from zero shifted
by the accumulator. -/
theorem awaStep_shift (x y : ℚ) (f : VFeature) :
    awaStep (x, y) f = (x + (awaStep (0, 0) f).1, y + (awaStep (0, 0) f).2) := by
  unfold awaStep
  rcases f with ⟨ge, inter, fld⟩
  cases ge <;> cases inter <;> rcases h : vfeatureValue ⟨_, _, fld⟩ with _ | v <;> simp [h]

/-- The weighted-sum accumulator of area_weighted_average. -/
def weightedSum (features : List VFeature) : ℚ :=
  (features.foldl awaStep (0, 0)).1

/-- The total-area accumulator of area_weighted_average. -/
def totalArea (features : List VFeature) : ℚ :=
  (features.foldl awaStep (0, 0)).2

/-- The fold of area_weighted_average is additive in its starting
accumulator. -/
theorem awa_foldl_shift (features : List VFeature) (x y : ℚ) :
    features.foldl awaStep (x, y) = (x + weightedSum features, y + totalArea features) := by
  induction features generalizing x y with
  | nil => simp [weightedSum, totalArea]
  | cons f fs ih =>
      simp only [List.foldl_cons, weightedSum, totalArea]
      rw [awaStep_shift x y f]
      rw [ih]
      rw [show awaStep (0, 0) f = ((awaStep (0, 0) f).1, (awaStep (0, 0) f).2) from rfl]
      rw [ih]
      simp only [Prod.mk.injEq]
      constructor <;> ring

/-- Head step of the weighted-sum accumulator. -/
theorem weightedSum_cons (f : VFeature) (fs : List VFeature) :
    weightedSum (f :: fs) = (awaStep (0, 0) f).1 + weightedSum fs := by
  simp only [weightedSum, List.foldl_cons]
  rw [show awaStep (0, 0) f = ((awaStep (0, 0) f).1, (awaStep (0, 0) f).2) from rfl,
    awa_foldl_shift]
  rfl

/-- Head step of the total-area accumulator. -/
theorem totalArea_cons (f : VFeature) (fs : List VFeature) :
    totalArea (f :: fs) = (awaStep (0, 0) f).2 + totalArea fs := by
  simp only [totalArea, List.foldl_cons]
  rw [show awaStep (0, 0) f = ((awaStep (0, 0) f).1, (awaStep (0, 0) f).2) from rfl,
    awa_foldl_shift]
  rfl

/-- Accumulated total area is nonnegative whenever every intersection
area is. -/
theorem totalArea_nonneg (features : List VFeature)
    (h : ∀ f ∈ features, ∀ x, f.inter = some x → 0 ≤ x) :
    0 ≤ totalArea features := by
  induction features with
  | nil => simp [totalArea]
  | cons f fs ih =>
      have hfs : 0 ≤ totalArea fs := ih (fun g hg => h g (List.mem_cons_of_mem f hg))
      have hstep : 0 ≤ (awaStep (0, 0) f).2 := by
        unfold awaStep
        rcases hf : f.inter with _ | a
        · simp [hf]
        · have ha : 0 ≤ a := h f (List.mem_cons_self f fs) a hf
          cases hge : f.geomEmpty <;> rcases hv : vfeatureValue f with _ | v <;>
            simp [hf, hge, hv, ha]
      rw [totalArea_cons]
      exact add_nonneg hstep hfs

/-! ### Claim theorems -/

/-- C9: the claim says both samplers use a pool of size
`max(1, cpu_count - 1)`; the flood sampler does, but the heat sampler
passes `cpu_count - 1` to `mp.Pool` with no lower bound, so at
`cpu_count = 1` it requests a 0-process pool, which raises instead of
giving a 1-process pool.  For `cpu_count ≥ 2` the two agree. -/
theorem C9_pool_sizes :
    compute_raw_heat_pool 1 = .error "Number of processes must be at least 1"
    ∧ compute_raw_flood_workers 1 = 1
    ∧ (∀ n : ℕ, 2 ≤ n → compute_raw_heat_pool n = .ok (max 1 (n - 1)))
    ∧ (∀ n : ℕ, compute_raw_flood_workers n = max 1 (n - 1)) := by
  refine ⟨rfl, rfl, ?_, fun n => rfl⟩
  intro n hn
  unfold compute_raw_heat_pool mpPool
  have h1 : 1 ≤ n - 1 := by omega
  rw [if_pos h1]
  congr 1
  omega

/-- Witness for C9_pool_sizes at cpu_count = 4. -/
theorem C9_pool_sizes_witness :
    (2 : ℕ) ≤ 4 ∧ compute_raw_heat_pool 4 = .ok 3 := by
  refine ⟨by norm_num, ?_⟩
  have h := C9_pool_sizes.2.2.1 4 (by norm_num)
  simpa using h

/-- C6: read_raster_window errors exactly when the raster's CRS is
present and differs from the target (and otherwise returns the windowed
data unmodified — no reprojection); in process_site_flood an error from
either windowed read yields the all-zero fraction record; and a buffer
mask with zero pixels yields fraction 0.0. -/
theorem C6_read_errors_degrade :
    (∀ (src : Raster) (t : String),
        (∃ e, read_raster_window src t = .error e) ↔ ∃ c, src.crs = some c ∧ c ≠ t)
    ∧ (∀ (src : Raster) (t : String) (d : List ℕ),
        read_raster_window src t = .ok d → d = src.data)
    ∧ (∀ (site : FloodSite) (fema storm : Raster) (t : String),
        ((∃ e, read_raster_window fema t = .error e)
          ∨ (∃ e, read_raster_window storm t = .error e)) →
        process_site_flood site fema storm t = zeroFracs)
    ∧ (∀ (mask : List Bool) (arr : List ℕ) (c : ℕ),
        mask.countP id = 0 → classFrac mask arr c = 0) := by
  refine ⟨?_, ?_, ?_, ?_⟩
  · intro src t
    unfold read_raster_window
    rcases h : src.crs with _ | c
    · simp
    · by_cases hc : c = t <;> simp [hc]
  · intro src t d
    unfold read_raster_window
    rcases h : src.crs with _ | c
    · intro h2
      first
      | exact h2.symm
      | (injection h2 with h3; exact h3.symm)
    · by_cases hc : c = t
      · simp only [hc, ne_eq, not_true_eq_false, if_false, ite_false]
        intro h2
        first
        | exact h2.symm
        | (injection h2 with h3; exact h3.symm)
      · simp [hc]
  · intro site fema storm t herr
    unfold process_site_flood
    by_cases hg : site.geomEmpty
    · simp [hg]
    · simp only [hg, if_false, Bool.false_eq_true]
      rcases herr with ⟨e, he⟩ | ⟨e, he⟩
      · rw [he]
      · rw [he]
        rcases read_raster_window fema t with _ | _ <;> rfl
  · intro mask arr c h
    unfold classFrac
    simp [h]

/-- Witness for C6_read_errors_degrade: a CRS-mismatched raster makes
the read error and the flood sampler degrade to zeros; an all-false
buffer mask gives fraction 0. -/
theorem C6_read_errors_degrade_witness :
    (∃ c, (Raster.mk (some "EPSG:4326") [1, 2]).crs = some c ∧ c ≠ "EPSG:6539")
    ∧ process_site_flood ⟨false, [true]⟩ ⟨some "EPSG:4326", [1, 2]⟩
        ⟨some "EPSG:6539", [1]⟩ "EPSG:6539" = zeroFracs
    ∧ classFrac [false, false] [1, 2] 1 = 0 := by
  refine ⟨⟨"EPSG:4326", rfl, by decide⟩, ?_, ?_⟩
  · exact C6_read_errors_degrade.2.2.1 ⟨false, [true]⟩ _ _ _ (Or.inl ⟨_, rfl⟩)
  · exact C6_read_errors_degrade.2.2.2 [false, false] [1, 2] 1 (by decide)

/-- C7 counterexample: for a park with empty geometry, the five flood
class-fraction cells are stored as the ordinary float 0.0
(`some 0` in the NaN-as-none model of float cells), not as missing
values, so not every raster-derived raw metric of such a park is set to
NaN. -/
theorem C7_counterexample :
    floodRawCells ⟨true, []⟩ ⟨some "EPSG:6539", [1, 2]⟩ ⟨some "EPSG:6539", [1, 3]⟩
        "EPSG:6539" = [some 0, some 0, some 0, some 0, some 0]
    ∧ ¬ (∀ cell ∈ floodRawCells ⟨true, []⟩ ⟨some "EPSG:6539", [1, 2]⟩
          ⟨some "EPSG:6539", [1, 3]⟩ "EPSG:6539", cell = none) := by
  constructor
  · rfl
  · intro h
    have := h (some 0) (by rw [show floodRawCells ⟨true, []⟩ ⟨some "EPSG:6539", [1, 2]⟩
      ⟨some "EPSG:6539", [1, 3]⟩ "EPSG:6539" =
        [some 0, some 0, some 0, some 0, some 0] from rfl]; simp)
    exact Option.noConfusion this

/-- C7 amended: for a park with missing/empty geometry the heat raw
mean and the area-weighted vulnerability raw metrics are set to missing
and propagate as missing through the percentile and row-mean
computations, the five flood class fractions are set to the float 0.0
(not missing), and investment aggregation treats the park as having
total 0. -/
theorem C7_amended :
    ∀ (w : Option (List ℚ)) (dist : List ℚ) (cands : List VFeature),
      extract_mean_temperature ⟨true, w⟩ = none
      ∧ heat_index_of (heat_percentile (extract_mean_temperature ⟨true, w⟩) dist) = none
      ∧ hviRawOfSite true cands = none
      ∧ rowMean2 (hviRawOfSite true cands) none = none
      ∧ (∀ (site : FloodSite) (fema storm : Raster) (t : String),
          site.geomEmpty = true → process_site_flood site fema storm t = zeroFracs)
      ∧ est_inv_total_cell none = 0 := by
  intro w dist cands
  refine ⟨rfl, ?_, rfl, ?_, ?_, rfl⟩
  · rw [show extract_mean_temperature ⟨true, w⟩ = none from rfl]
    rfl
  · rw [show hviRawOfSite true cands = none from rfl]
    rfl
  · intro site fema storm t hg
    unfold process_site_flood
    simp [hg]

/-- Witness for C7_amended: a concrete empty-geometry park. -/
theorem C7_amended_witness :
    process_site_flood ⟨true, [true]⟩ ⟨some "EPSG:6539", [1]⟩ ⟨some "EPSG:6539", [2]⟩
        "EPSG:6539" = zeroFracs
    ∧ extract_mean_temperature ⟨true, some [280]⟩ = none := by
  refine ⟨?_, (C7_amended (some [280]) [] []).1⟩
  exact (C7_amended (some [280]) [] []).2.2.2.2.1 ⟨true, [true]⟩ _ _ _ rfl

/-- C1: within one TrackerID group joined to parks with acreages
`a1..an` and total investment `T` taken from the group's first row,
every row is allocated `T * ai / Σa`; when `Σa > 0` the allocations sum
to `T` (exactly, in the rational model of float arithmetic), and when
`Σa = 0` every allocation is 0. -/
theorem C1_allocate_investment_by_tracker (group : List TrackerRow) :
    (allocate_investment_by_tracker group).length = group.length
    ∧ (0 < (group.map (·.acres)).sum →
        ∀ i (hi : i < group.length),
          (allocate_investment_by_tracker group).get
              ⟨i, by simpa [allocate_investment_by_tracker] using hi⟩
            = (group.headD ⟨0, 0⟩).EstInvestment * (group.get ⟨i, hi⟩).acres
                / (group.map (·.acres)).sum)
    ∧ (0 < (group.map (·.acres)).sum →
        (allocate_investment_by_tracker group).sum = (group.headD ⟨0, 0⟩).EstInvestment)
    ∧ ((group.map (·.acres)).sum = 0 →
        ∀ x ∈ allocate_investment_by_tracker group, x = 0) := by
  refine ⟨by simp [allocate_investment_by_tracker], ?_, ?_, ?_⟩
  · intro hS i hi
    simp only [allocate_investment_by_tracker, List.get_eq_getElem, List.getElem_map,
      if_pos hS]
    rw [mul_div_assoc]
  · intro hS
    have hne : (group.map (·.acres)).sum ≠ 0 := ne_of_gt hS
    simp only [allocate_investment_by_tracker, if_pos hS]
    have : (group.map (fun row =>
        (group.headD ⟨0, 0⟩).EstInvestment * (row.acres / (group.map (·.acres)).sum))).sum
        = (group.headD ⟨0, 0⟩).EstInvestment *
            ((group.map (fun row => row.acres / (group.map (·.acres)).sum)).sum) :=
      List.sum_map_mul_left group _ _
    rw [this]
    have h2 : (group.map (fun row => row.acres / (group.map (·.acres)).sum)).sum
        = (group.map (·.acres)).sum / (group.map (·.acres)).sum := by
      simp only [div_eq_mul_inv]
      exact List.sum_map_mul_right group (·.acres) _
    rw [h2, div_self hne, mul_one]
  · intro hS x hx
    simp only [allocate_investment_by_tracker] at hx
    rw [List.mem_map] at hx
    obtain ⟨row, _, hrow⟩ := hx
    rw [hS] at hrow
    simp at hrow
    exact hrow.symm

/-- Witness for C1_allocate_investment_by_tracker: the spec's synthetic
example — one project worth 6,000,000 joined to two parks with acreages
2 and 4 receives allocations 2,000,000 and 4,000,000. -/
theorem C1_allocate_investment_by_tracker_witness :
    (0 : ℚ) < ([⟨6000000, 2⟩, ⟨6000000, 4⟩].map (TrackerRow.acres)).sum
    ∧ (allocate_investment_by_tracker [⟨6000000, 2⟩, ⟨6000000, 4⟩]).sum = 6000000
    ∧ allocate_investment_by_tracker [⟨6000000, 2⟩, ⟨6000000, 4⟩] = [2000000, 4000000] := by
  refine ⟨by norm_num, ?_, by norm_num [allocate_investment_by_tracker]⟩
  have h := (C1_allocate_investment_by_tracker [⟨6000000, 2⟩, ⟨6000000, 4⟩]).2.2.1
    (by norm_num)
  simpa using h

/-- C10: in area_weighted_average a row lacking the target field is not
skipped — it contributes value 0 weighted by its full intersection area;
rows with empty geometry, empty intersection, or a value that fails
float coercion are skipped; and the result is NaN exactly when the
accumulated total intersection area is 0 (given nonnegative areas). -/
theorem C10_area_weighted_average (features : List VFeature) (a : ℚ) :
    (area_weighted_average (⟨false, some a, none⟩ :: features)
        = if 0 < a + totalArea features
          then some ((0 * a + weightedSum features) / (a + totalArea features))
          else none)
    ∧ (∀ f : VFeature, f.geomEmpty = true →
        area_weighted_average (f :: features) = area_weighted_average features)
    ∧ (∀ f : VFeature, f.inter = none →
        area_weighted_average (f :: features) = area_weighted_average features)
    ∧ (∀ f : VFeature, f.field = some none →
        area_weighted_average (f :: features) = area_weighted_average features)
    ∧ ((∀ f ∈ features, ∀ x, f.inter = some x → 0 ≤ x) →
        (area_weighted_average features = none ↔ totalArea features = 0)) := by
  have hcons : ∀ f : VFeature, area_weighted_average (f :: features)
      = if 0 < (awaStep (0, 0) f).2 + totalArea features
        then some (((awaStep (0, 0) f).1 + weightedSum features)
          / ((awaStep (0, 0) f).2 + totalArea features))
        else none := by
    intro f
    simp only [area_weighted_average, List.foldl_cons]
    rw [show awaStep (0, 0) f = ((awaStep (0, 0) f).1, (awaStep (0, 0) f).2) from rfl,
      awa_foldl_shift]
  have hskip : ∀ f : VFeature, awaStep (0, 0) f = (0, 0) →
      area_weighted_average (f :: features) = area_weighted_average features := by
    intro f hf
    rw [hcons f, hf]
    simp only [area_weighted_average, weightedSum, totalArea, zero_add]
  refine ⟨?_, ?_, ?_, ?_, ?_⟩
  · rw [hcons ⟨false, some a, none⟩]
    have : awaStep (0, 0) (⟨false, some a, none⟩ : VFeature) = (0 * a, a) := by
      simp [awaStep, vfeatureValue]
    rw [this]
  · intro f hf
    exact hskip f (by simp [awaStep, hf])
  · intro f hf
    exact hskip f (by simp [awaStep, hf])
  · intro f hf
    refine hskip f ?_
    unfold awaStep
    rcases hi : f.inter with _ | x
    · cases f.geomEmpty <;> simp
    · cases f.geomEmpty <;> simp [vfeatureValue, hf, hi]
  · intro hpos
    have hnn := totalArea_nonneg features hpos
    unfold area_weighted_average
    constructor
    · intro h
      by_cases ht : 0 < (features.foldl awaStep (0, 0)).2
      · rw [if_pos ht] at h
        exact absurd h (by simp)
      · have : totalArea features ≤ 0 := not_lt.mp ht
        exact le_antisymm this hnn
    · intro h
      have : ¬ 0 < (features.foldl awaStep (0, 0)).2 := by
        rw [show (features.foldl awaStep (0, 0)).2 = totalArea features from rfl, h]
        exact lt_irrefl 0
      rw [if_neg this]

/-- Witness for C10_area_weighted_average: a row with value 10 and
intersection area 1 next to a field-less row with intersection area 3;
the average is pulled from 10 down to 2.5, and the NaN characterization
holds at the singleton list. -/
theorem C10_area_weighted_average_witness :
    area_weighted_average [⟨false, some 3, none⟩, ⟨false, some 1, some (some 10)⟩]
      = some (5 / 2)
    ∧ (area_weighted_average [⟨false, some 1, some (some 10)⟩] = none
        ↔ totalArea [⟨false, some 1, some (some 10)⟩] = 0) := by
  constructor
  · have h := (C10_area_weighted_average [⟨false, some 1, some (some 10)⟩] 3).1
    rw [h]
    norm_num [totalArea, weightedSum, awaStep, vfeatureValue]
  · exact (C10_area_weighted_average [⟨false, some 1, some (some 10)⟩] 3).2.2.2.2
      (by
        intro f hf x hx
        simp only [List.mem_singleton] at hf
        subst hf
        injection hx with h
        rw [← h]
        norm_num)

/-- A list that does not start with a dollar sign fails dollar_match. -/
theorem dollar_match_eq_none (cs : List Char) (hd : ∀ r, cs ≠ '$' :: r) :
    dollar_match cs = none := by
  unfold dollar_match
  split
  · next rest => exact absurd rfl (hd rest)
  · rfl

/-- C8: reformat_est_investment maps the Between pattern to the
midpoint times one million, the Less-than/Greater-than patterns to the
stated number times one million (qualifier discarded), a plain dollar
amount to its comma-stripped float value, a null input to NaN, and any
string matching none of the three patterns to NaN. -/
theorem C8_reformat_est_investment :
    reformat_est_investment (some "Between $3 million and $5 million") = some 4000000
    ∧ reformat_est_investment (some "Less than $1 million") = some 1000000
    ∧ reformat_est_investment (some "Greater than $10 million") = some 10000000
    ∧ reformat_est_investment (some "$2,972,000") = some 2972000
    ∧ reformat_est_investment none = none
    ∧ (∀ s : String,
        between_match (pyStrip s.toList) = none →
        lt_gt_match (pyStrip s.toList) = none →
        (∀ r, pyStrip s.toList ≠ '$' :: r) →
        reformat_est_investment (some s) = none) := by
  refine ⟨?_, ?_, ?_, ?_, rfl, ?_⟩
  · have h : between_match (pyStrip "Between $3 million and $5 million".toList)
        = some (3, 5) := by decide
    simp only [reformat_est_investment, h]
    norm_num
  · have hb : between_match (pyStrip "Less than $1 million".toList) = none := by decide
    have h : lt_gt_match (pyStrip "Less than $1 million".toList) = some 1 := by decide
    simp only [reformat_est_investment, hb, h]
    norm_num
  · have hb : between_match (pyStrip "Greater than $10 million".toList) = none := by decide
    have h : lt_gt_match (pyStrip "Greater than $10 million".toList) = some 10 := by decide
    simp only [reformat_est_investment, hb, h]
    norm_num
  · have hb : between_match (pyStrip "$2,972,000".toList) = none := by decide
    have hl : lt_gt_match (pyStrip "$2,972,000".toList) = none := by decide
    have hf : dollar_match (pyStrip "$2,972,000".toList) = some 2972000 := by decide
    simp only [reformat_est_investment, hb, hl, hf]
  · intro s hb hl hd
    simp only [reformat_est_investment, hb, hl]
    exact dollar_match_eq_none _ hd

/-- Witness for C8_reformat_est_investment: the catch-all branch at a
string matching none of the three patterns. -/
theorem C8_reformat_est_investment_witness :
    between_match (pyStrip "TBD".toList) = none
    ∧ lt_gt_match (pyStrip "TBD".toList) = none
    ∧ (∀ r, pyStrip "TBD".toList ≠ '$' :: r)
    ∧ reformat_est_investment (some "TBD") = none := by
  have hd : ∀ r, pyStrip "TBD".toList ≠ '$' :: r := by
    intro r hr
    rw [show pyStrip "TBD".toList = ['T', 'B', 'D'] from by decide] at hr
    injection hr with h1 h2
    exact absurd h1 (by decide)
  refine ⟨by decide, by decide, hd, ?_⟩
  exact C8_reformat_est_investment.2.2.2.2.2 "TBD" (by decide) (by decide) hd

/-! ### Quantile lemmas -/

/-- sortRat output is sorted. -/
theorem sortRat_sorted (s : List ℚ) : (sortRat s).Sorted (· ≤ ·) := by
  have h := @List.sorted_mergeSort ℚ (fun a b : ℚ => decide (a ≤ b))
    (fun a b c hab hbc => by
      simp only [decide_eq_true_eq] at hab hbc ⊢
      exact le_trans hab hbc)
    (fun a b => by simpa using le_total a b) s
  simpa [sortRat, List.Sorted, decide_eq_true_eq] using h

/-- sortRat is a permutation of its input. -/
theorem sortRat_perm (s : List ℚ) : (sortRat s).Perm s :=
  List.mergeSort_perm s _

/-- sortRat preserves length. -/
theorem sortRat_length (s : List ℚ) : (sortRat s).length = s.length :=
  (sortRat_perm s).length_eq

/-- In a sorted list, getD is monotone over in-range indices. -/
theorem sorted_getD_mono {s : List ℚ} (hs : s.Sorted (· ≤ ·)) {i j : ℕ}
    (hij : i ≤ j) (hj : j < s.length) : s.getD i 0 ≤ s.getD j 0 := by
  have hi : i < s.length := lt_of_le_of_lt hij hj
  rw [List.getD_eq_getElem s 0 hi, List.getD_eq_getElem s 0 hj]
  rcases eq_or_lt_of_le hij with rfl | hlt
  · exact le_refl _
  · have h2 := @List.Sorted.rel_get_of_lt ℚ _ s hs ⟨i, hi⟩ ⟨j, hj⟩ (by simpa using hlt)
    simpa using h2

/-- nthClamped is monotone in the index on sorted lists. -/
theorem nthClamped_mono {s : List ℚ} (hs : s.Sorted (· ≤ ·)) {i j : ℕ} (hij : i ≤ j) :
    nthClamped s i ≤ nthClamped s j := by
  rcases Nat.eq_zero_or_pos s.length with h0 | hpos
  · rw [List.length_eq_zero] at h0
    subst h0
    simp [nthClamped]
  · unfold nthClamped
    have h1 : min i (s.length - 1) ≤ min j (s.length - 1) := by omega
    have h2 : min j (s.length - 1) < s.length := by omega
    exact sorted_getD_mono hs h1 h2

/-- The cast of the truncated floor of a nonnegative rational is its
floor. -/
theorem toNat_floor_cast {h : ℚ} (h0 : 0 ≤ h) : ((⌊h⌋.toNat : ℕ) : ℚ) = (⌊h⌋ : ℚ) := by
  have := Int.toNat_of_nonneg (Int.floor_nonneg.mpr h0)
  exact_mod_cast congrArg (fun z : ℤ => (z : ℚ)) this

/-- Interpolation at a nonnegative rank is bounded below by the cell's
left endpoint. -/
theorem interpAt_ge {s : List ℚ} (hs : s.Sorted (· ≤ ·)) {h : ℚ} (h0 : 0 ≤ h) :
    nthClamped s ⌊h⌋.toNat ≤ interpAt s h := by
  simp only [interpAt]
  have hg : 0 ≤ h - ((⌊h⌋.toNat : ℕ) : ℚ) := by
    rw [toNat_floor_cast h0]
    have := Int.floor_le h
    linarith
  have hba : 0 ≤ nthClamped s (⌊h⌋.toNat + 1) - nthClamped s ⌊h⌋.toNat := by
    have := nthClamped_mono hs (Nat.le_succ ⌊h⌋.toNat)
    linarith
  nlinarith

/-- Interpolation at a nonnegative rank is bounded above by the cell's
right endpoint. -/
theorem interpAt_le {s : List ℚ} (hs : s.Sorted (· ≤ ·)) {h : ℚ} (h0 : 0 ≤ h) :
    interpAt s h ≤ nthClamped s (⌊h⌋.toNat + 1) := by
  simp only [interpAt]
  have hg1 : h - ((⌊h⌋.toNat : ℕ) : ℚ) ≤ 1 := by
    rw [toNat_floor_cast h0]
    have := Int.lt_floor_add_one h
    linarith
  have hba : 0 ≤ nthClamped s (⌊h⌋.toNat + 1) - nthClamped s ⌊h⌋.toNat := by
    have := nthClamped_mono hs (Nat.le_succ ⌊h⌋.toNat)
    linarith
  nlinarith

/-- Interpolation on a sorted list is monotone over nonnegative ranks. -/
theorem interpAt_mono {s : List ℚ} (hs : s.Sorted (· ≤ ·)) {h₁ h₂ : ℚ}
    (h0 : 0 ≤ h₁) (h12 : h₁ ≤ h₂) : interpAt s h₁ ≤ interpAt s h₂ := by
  have h20 : 0 ≤ h₂ := le_trans h0 h12
  have hfl : ⌊h₁⌋.toNat ≤ ⌊h₂⌋.toNat := Int.toNat_le_toNat (Int.floor_le_floor h12)
  rcases eq_or_lt_of_le hfl with heq | hlt
  · simp only [interpAt, ← heq]
    have hba : 0 ≤ nthClamped s (⌊h₁⌋.toNat + 1) - nthClamped s ⌊h₁⌋.toNat := by
      have := nthClamped_mono hs (Nat.le_succ ⌊h₁⌋.toNat)
      linarith
    nlinarith
  · calc interpAt s h₁ ≤ nthClamped s (⌊h₁⌋.toNat + 1) := interpAt_le hs h0
      _ ≤ nthClamped s ⌊h₂⌋.toNat := nthClamped_mono hs hlt
      _ ≤ interpAt s h₂ := interpAt_ge hs h20

/-- Series quantile is monotone in the quantile level over [0, ∞). -/
theorem seriesQuantile_mono (s : List ℚ) {q₁ q₂ : ℚ} (hq0 : 0 ≤ q₁) (h12 : q₁ ≤ q₂) :
    seriesQuantile s q₁ ≤ seriesQuantile s q₂ := by
  unfold seriesQuantile
  have hc : (0 : ℚ) ≤ ((s.length - 1 : ℕ) : ℚ) := by positivity
  exact interpAt_mono (sortRat_sorted s) (mul_nonneg hq0 hc)
    (mul_le_mul_of_nonneg_right h12 hc)

/-- The outlier-trimmed lower bound never exceeds the upper bound when
the trim percentile is between 0 and 50. -/
theorem mmnLower_le_mmnUpper (series : List (Option ℚ)) {p : ℚ}
    (hp0 : 0 ≤ p) (hp : p ≤ 50) : mmnLower series p ≤ mmnUpper series p := by
  unfold mmnLower mmnUpper
  exact seriesQuantile_mono _ (by positivity) (by linarith)

/-- clip keeps values inside [lo, hi] when lo ≤ hi. -/
theorem clip_mem {lo hi : ℚ} (hlo : lo ≤ hi) (x : ℚ) :
    lo ≤ clip lo hi x ∧ clip lo hi x ≤ hi :=
  ⟨le_max_left _ _, max_le hlo (min_le_right _ _)⟩

/-- min_max_normalize preserves the series length. -/
theorem mmn_length (series : List (Option ℚ)) (p : ℚ) :
    (min_max_normalize series p).length = series.length := by
  unfold min_max_normalize
  split <;> simp [fillna0]

/-- Every output of min_max_normalize lies in [0, 1] when the trim
percentile is between 0 and 50. -/
theorem mmn_mem_unit (series : List (Option ℚ)) (p : ℚ) (hp0 : 0 ≤ p) (hp : p ≤ 50) :
    ∀ y ∈ min_max_normalize series p, 0 ≤ y ∧ y ≤ 1 := by
  intro y hy
  unfold min_max_normalize at hy
  by_cases hdeg : mmnUpper series p - mmnLower series p = 0
  · rw [if_pos hdeg, List.mem_map] at hy
    obtain ⟨x, _, hx⟩ := hy
    split at hx <;> rw [← hx] <;> norm_num
  · rw [if_neg hdeg, List.mem_map] at hy
    obtain ⟨x, _, hx⟩ := hy
    have hlou := mmnLower_le_mmnUpper series hp0 hp
    have hpos : 0 < mmnUpper series p - mmnLower series p := by
      rcases lt_or_eq_of_le (sub_nonneg.mpr hlou) with h | h
      · exact h
      · exact absurd h.symm hdeg
    have hc := clip_mem hlou x
    rw [← hx]
    constructor
    · apply div_nonneg _ (le_of_lt hpos)
      linarith [hc.1]
    · rw [div_le_one hpos]
      linarith [hc.2]

/-- sortRat fixes replicate lists. -/
theorem sortRat_replicate (n : ℕ) (c : ℚ) :
    sortRat (List.replicate n c) = List.replicate n c :=
  List.perm_replicate.mp (sortRat_perm _)

/-- Any quantile of a nonempty constant series is the constant. -/
theorem seriesQuantile_replicate {n : ℕ} (hn : n ≠ 0) (c q : ℚ) :
    seriesQuantile (List.replicate n c) q = c := by
  unfold seriesQuantile
  rw [sortRat_replicate]
  simp only [interpAt, nthClamped]
  have hlen : (List.replicate n c).length = n := List.length_replicate n c
  have hget : ∀ i : ℕ, (List.replicate n c).getD (min i ((List.replicate n c).length - 1)) 0 = c := by
    intro i
    have hlt : min i ((List.replicate n c).length - 1) < (List.replicate n c).length := by
      rw [hlen]; omega
    rw [List.getD_eq_getElem _ _ hlt, List.getElem_replicate]
  rw [hget, hget]
  ring

/-- The empty list sorts to itself. -/
theorem sortRat_nil : sortRat [] = [] :=
  List.Perm.eq_nil (sortRat_perm [])

/-- filling a series that was already filled changes nothing. -/
theorem fillna0_map_some (series : List (Option ℚ)) :
    fillna0 (series.map (fun v => some (v.getD 0))) = fillna0 series := by
  simp [fillna0, List.map_map]

/-- min_max_normalize only sees the filled series: missing values are
treated as 0. -/
theorem mmn_fillna_invariant (series : List (Option ℚ)) (p : ℚ) :
    min_max_normalize (series.map (fun v => some (v.getD 0))) p
      = min_max_normalize series p := by
  unfold min_max_normalize mmnUpper mmnLower
  rw [fillna0_map_some]

/-- In the degenerate case (equal bounds) min_max_normalize is the
constant map: 0.0 when the upper bound is 0, else 1.0. -/
theorem mmn_degenerate (series : List (Option ℚ)) (p : ℚ)
    (h : mmnUpper series p - mmnLower series p = 0) :
    min_max_normalize series p
      = (fillna0 series).map (fun _ => if mmnUpper series p = 0 then (0 : ℚ) else 1) := by
  unfold min_max_normalize
  rw [if_pos h]

/-- Outside the degenerate case, a series value equal to the lower bound
normalizes to exactly 0 and one equal to the upper bound to exactly 1. -/
theorem mmn_boundary (series : List (Option ℚ)) {p : ℚ} (hp0 : 0 ≤ p) (hp : p ≤ 50)
    (hne : mmnUpper series p - mmnLower series p ≠ 0) {i : ℕ} (hi : i < series.length) :
    ((fillna0 series).getD i 0 = mmnLower series p →
      (min_max_normalize series p).getD i 0 = 0)
    ∧ ((fillna0 series).getD i 0 = mmnUpper series p →
      (min_max_normalize series p).getD i 0 = 1) := by
  have hlou := mmnLower_le_mmnUpper series hp0 hp
  have hilen : i < (fillna0 series).length := by simpa [fillna0] using hi
  have hmap : (min_max_normalize series p).getD i 0
      = (clip (mmnLower series p) (mmnUpper series p) ((fillna0 series).getD i 0)
          - mmnLower series p) / (mmnUpper series p - mmnLower series p) := by
    unfold min_max_normalize
    rw [if_neg hne]
    have hmlen : i < ((fillna0 series).map (fun x =>
        (clip (mmnLower series p) (mmnUpper series p) x - mmnLower series p) /
          (mmnUpper series p - mmnLower series p))).length := by
      simpa using hilen
    rw [List.getD_eq_getElem _ _ hmlen, List.getElem_map, List.getD_eq_getElem _ _ hilen]
  constructor
  · intro hx
    rw [hmap, hx]
    have hcl : clip (mmnLower series p) (mmnUpper series p) (mmnLower series p)
        = mmnLower series p := by
      unfold clip
      rw [min_eq_left hlou, max_self]
    rw [hcl, sub_self, zero_div]
  · intro hx
    rw [hmap, hx]
    have hcl : clip (mmnLower series p) (mmnUpper series p) (mmnUpper series p)
        = mmnUpper series p := by
      unfold clip
      rw [min_self, max_eq_right hlou]
    rw [hcl, div_self hne]

/-- A nonempty constant nonzero series normalizes to all ones. -/
theorem mmn_const {n : ℕ} (hn : n ≠ 0) {c : ℚ} (hc : c ≠ 0) :
    min_max_normalize (List.replicate n (some c)) 5 = List.replicate n 1 := by
  have hf : fillna0 (List.replicate n (some c)) = List.replicate n c := by
    simp [fillna0]
  have hl : mmnLower (List.replicate n (some c)) 5 = c := by
    unfold mmnLower
    rw [hf]
    exact seriesQuantile_replicate hn c _
  have hu : mmnUpper (List.replicate n (some c)) 5 = c := by
    unfold mmnUpper
    rw [hf]
    exact seriesQuantile_replicate hn c _
  unfold min_max_normalize
  rw [hl, hu, sub_self, if_pos rfl, hf, if_neg hc]
  simp

/-- An all-zero series normalizes to all zeros. -/
theorem mmn_zero (n : ℕ) :
    min_max_normalize (List.replicate n (some 0)) 5 = List.replicate n 0 := by
  rcases Nat.eq_zero_or_pos n with rfl | hn
  · have h0 : mmnUpper ([] : List (Option ℚ)) 5 - mmnLower ([] : List (Option ℚ)) 5 = 0 := by
      unfold mmnUpper mmnLower seriesQuantile
      rw [show fillna0 ([] : List (Option ℚ)) = [] from rfl, sortRat_nil]
      simp [interpAt, nthClamped]
    rw [show List.replicate 0 (some (0 : ℚ)) = ([] : List (Option ℚ)) from rfl]
    rw [mmn_degenerate _ _ h0]
    rfl
  · have hf : fillna0 (List.replicate n (some (0 : ℚ))) = List.replicate n 0 := by
      simp [fillna0]
    have hl : mmnLower (List.replicate n (some (0 : ℚ))) 5 = 0 := by
      unfold mmnLower
      rw [hf]
      exact seriesQuantile_replicate (by omega) 0 _
    have hu : mmnUpper (List.replicate n (some (0 : ℚ))) 5 = 0 := by
      unfold mmnUpper
      rw [hf]
      exact seriesQuantile_replicate (by omega) 0 _
    unfold min_max_normalize
    rw [hl, hu, sub_self, if_pos rfl, hf, if_pos rfl]
    simp

/-- C2: min_max_normalize with the default outlier percentile 5 treats
missing values as 0, every output lies in [0,1], a filled value equal to
the 5th/95th-percentile bound maps to exactly 0/1 when the bounds
differ, equal bounds yield the constant 1.0 (or 0.0 when the upper
bound is 0), a constant nonzero series maps to all ones and an all-zero
series to all zeros. -/
theorem C2_min_max_normalize (series : List (Option ℚ)) :
    min_max_normalize (series.map (fun v => some (v.getD 0))) 5
        = min_max_normalize series 5
    ∧ (∀ y ∈ min_max_normalize series 5, 0 ≤ y ∧ y ≤ 1)
    ∧ (mmnUpper series 5 - mmnLower series 5 ≠ 0 →
        ∀ i, i < series.length →
          ((fillna0 series).getD i 0 = mmnLower series 5 →
            (min_max_normalize series 5).getD i 0 = 0)
          ∧ ((fillna0 series).getD i 0 = mmnUpper series 5 →
            (min_max_normalize series 5).getD i 0 = 1))
    ∧ (mmnUpper series 5 - mmnLower series 5 = 0 →
        min_max_normalize series 5
          = (fillna0 series).map (fun _ => if mmnUpper series 5 = 0 then (0 : ℚ) else 1))
    ∧ (∀ (n : ℕ) (c : ℚ), n ≠ 0 → c ≠ 0 →
        min_max_normalize (List.replicate n (some c)) 5 = List.replicate n 1)
    ∧ (∀ n : ℕ, min_max_normalize (List.replicate n (some 0)) 5 = List.replicate n 0) := by
  refine ⟨mmn_fillna_invariant series 5, mmn_mem_unit series 5 (by norm_num) (by norm_num),
    ?_, mmn_degenerate series 5, fun n c hn hc => mmn_const hn hc, mmn_zero⟩
  intro hne i hi
  exact mmn_boundary series (by norm_num) (by norm_num) hne hi

/-- The witness series [1, 1, 7, 7] has 5th-percentile bound exactly 1. -/
theorem mmnLower_witness_series : mmnLower [some 1, some 1, some 7, some 7] 5 = 1 := by
  have hf : fillna0 [some 1, some 1, some 7, some 7] = [1, 1, 7, 7] := by decide
  have hs4 : ([1, 1, 7, 7] : List ℚ).Sorted (· ≤ ·) := by decide
  have hsorted : sortRat [1, 1, 7, 7] = [1, 1, 7, 7] := by
    unfold sortRat
    exact List.mergeSort_eq_self hs4
  unfold mmnLower seriesQuantile
  rw [hf, hsorted]
  have hr : (5 : ℚ) / 100 * ((([1, 1, 7, 7] : List ℚ).length - 1 : ℕ) : ℚ) = 3 / 20 := by
    norm_num
  rw [hr]
  have h0 : (0 : ℚ) ≤ 3 / 20 := by norm_num
  have hfl : (⌊(3 : ℚ) / 20⌋).toNat = 0 := by
    have h2 : ⌊(3 : ℚ) / 20⌋ = 0 := by
      rw [Int.floor_eq_zero_iff]
      constructor <;> norm_num
    rw [h2]
    rfl
  have hg := interpAt_ge hs4 h0
  have hle := interpAt_le hs4 h0
  rw [hfl] at hg hle
  have e0 : nthClamped [1, 1, 7, 7] 0 = 1 := by decide
  have e1 : nthClamped [1, 1, 7, 7] (0 + 1) = 1 := by decide
  rw [e0] at hg
  rw [e1] at hle
  linarith

/-- The witness series [1, 1, 7, 7] has 95th-percentile bound exactly 7. -/
theorem mmnUpper_witness_series : mmnUpper [some 1, some 1, some 7, some 7] 5 = 7 := by
  have hf : fillna0 [some 1, some 1, some 7, some 7] = [1, 1, 7, 7] := by decide
  have hs4 : ([1, 1, 7, 7] : List ℚ).Sorted (· ≤ ·) := by decide
  have hsorted : sortRat [1, 1, 7, 7] = [1, 1, 7, 7] := by
    unfold sortRat
    exact List.mergeSort_eq_self hs4
  unfold mmnUpper seriesQuantile
  rw [hf, hsorted]
  have hr : (1 - (5 : ℚ) / 100) * ((([1, 1, 7, 7] : List ℚ).length - 1 : ℕ) : ℚ)
      = 57 / 20 := by
    norm_num
  rw [hr]
  have h0 : (0 : ℚ) ≤ 57 / 20 := by norm_num
  have hfl : (⌊(57 : ℚ) / 20⌋).toNat = 2 := by
    have h2 : ⌊(57 : ℚ) / 20⌋ = 2 := by
      rw [Int.floor_eq_iff]
      constructor <;> norm_num
    rw [h2]
    rfl
  have hg := interpAt_ge hs4 h0
  have hle := interpAt_le hs4 h0
  rw [hfl] at hg hle
  have e2 : nthClamped [1, 1, 7, 7] 2 = 7 := by decide
  have e3 : nthClamped [1, 1, 7, 7] (2 + 1) = 7 := by decide
  rw [e2] at hg
  rw [e3] at hle
  linarith

/-- Witness for C2_min_max_normalize: on [1, 1, 7, 7] the bounds are 1
and 7, the values at the bounds map to exactly 0 and 1 and lie in
[0, 1]; a constant series of 3s maps to all ones and an all-zero series
to all zeros. -/
theorem C2_min_max_normalize_witness :
    mmnUpper [some 1, some 1, some 7, some 7] 5
        - mmnLower [some 1, some 1, some 7, some 7] 5 ≠ 0
    ∧ (min_max_normalize [some 1, some 1, some 7, some 7] 5).getD 0 0 = 0
    ∧ (min_max_normalize [some 1, some 1, some 7, some 7] 5).getD 2 0 = 1
    ∧ min_max_normalize (List.replicate 2 (some 3)) 5 = List.replicate 2 1
    ∧ min_max_normalize (List.replicate 2 (some 0)) 5 = List.replicate 2 0
    ∧ 0 ≤ (min_max_normalize [some 1, some 1, some 7, some 7] 5).getD 2 0
    ∧ (min_max_normalize [some 1, some 1, some 7, some 7] 5).getD 2 0 ≤ 1 := by
  have hl := mmnLower_witness_series
  have hu := mmnUpper_witness_series
  have hne : mmnUpper [some 1, some 1, some 7, some 7] 5
      - mmnLower [some 1, some 1, some 7, some 7] 5 ≠ 0 := by
    rw [hl, hu]
    norm_num
  have hmem : (min_max_normalize [some 1, some 1, some 7, some 7] 5).getD 2 0
      ∈ min_max_normalize [some 1, some 1, some 7, some 7] 5 := by
    have hlen : 2 < (min_max_normalize [some 1, some 1, some 7, some 7] 5).length := by
      rw [mmn_length]
      norm_num
    rw [List.getD_eq_getElem _ _ hlen]
    exact List.getElem_mem hlen
  have hrange := (C2_min_max_normalize [some 1, some 1, some 7, some 7]).2.1 _ hmem
  refine ⟨hne, ?_, ?_, ?_, ?_, hrange.1, hrange.2⟩
  · exact ((C2_min_max_normalize [some 1, some 1, some 7, some 7]).2.2.1 hne 0
      (by norm_num)).1 (by rw [hl]; decide)
  · exact ((C2_min_max_normalize [some 1, some 1, some 7, some 7]).2.2.1 hne 2
      (by norm_num)).2 (by rw [hu]; decide)
  · exact (C2_min_max_normalize []).2.2.2.2.1 2 3 (by norm_num) (by norm_num)
  · exact (C2_min_max_normalize []).2.2.2.2.2 2

/-! ### searchsorted and rounding lemmas -/

/-- A count of satisfying elements equals `k` when the first `k`
positions satisfy the predicate and the rest do not. -/
theorem countP_eq_of_split (a : List ℚ) (p : ℚ → Bool) (k : ℕ) (hk : k ≤ a.length)
    (h1 : ∀ i, i < k → ∀ hi : i < a.length, p a[i])
    (h2 : ∀ i, k ≤ i → ∀ hi : i < a.length, ¬ p a[i]) :
    a.countP p = k := by
  conv_lhs => rw [← List.take_append_drop k a]
  rw [List.countP_append]
  have htake : (a.take k).countP p = (a.take k).length := by
    rw [List.countP_eq_length]
    intro x hx
    rw [List.mem_take_iff_getElem] at hx
    obtain ⟨i, hm, hx⟩ := hx
    have hik : i < k := lt_of_lt_of_le hm (min_le_left _ _)
    have hia : i < a.length := lt_of_lt_of_le hm (min_le_right _ _)
    rw [← hx]
    exact h1 i hik hia
  have hdrop : (a.drop k).countP p = 0 := by
    rw [List.countP_eq_zero]
    intro x hx
    rw [List.mem_iff_getElem] at hx
    obtain ⟨j, hj, hx⟩ := hx
    have hkj : k + j < a.length := by
      simp at hj
      omega
    have hx2 : a.get ⟨k + j, hkj⟩ = x := by
      rw [List.get_eq_getElem]
      rw [← List.getElem_drop a]
      exact hx
    rw [← hx2, List.get_eq_getElem]
    exact h2 (k + j) (Nat.le_add_right k j) _
  rw [htake, hdrop, List.length_take]
  omega

/-- Invariant proof of the searchsorted binary-search loop: when every
position below `lo` holds a value `≤ v` and every position at or above
`hi` a value `> v`, the loop returns the count of values `≤ v`. -/
theorem searchsortedRightGo_eq_countP (a : List ℚ) (v : ℚ) (hs : a.Sorted (· ≤ ·)) :
    ∀ (n lo hi : ℕ), hi - lo ≤ n → lo ≤ hi → hi ≤ a.length →
      (∀ i, i < lo → ∀ hi' : i < a.length, a[i] ≤ v) →
      (∀ i, hi ≤ i → ∀ hi' : i < a.length, v < a[i]) →
      searchsortedRightGo a v lo hi = a.countP (fun x => decide (x ≤ v)) := by
  intro n
  induction n with
  | zero =>
      intro lo hi hm hlh hhl h1 h2
      have hef : lo = hi := by omega
      rw [searchsortedRightGo]
      rw [if_neg (by omega)]
      subst hef
      refine (countP_eq_of_split a _ lo (le_trans hlh ?_) ?_ ?_).symm
      · omega
      · intro i hik hia
        simpa using h1 i hik hia
      · intro i hik hia
        simp only [decide_eq_true_eq]
        exact not_le.mpr (h2 i (by omega) hia)
  | succ n ih =>
      intro lo hi hm hlh hhl h1 h2
      rw [searchsortedRightGo]
      by_cases hlt : lo < hi
      · rw [if_pos hlt]
        have hmid1 : lo ≤ (lo + hi) / 2 := by omega
        have hmid2 : (lo + hi) / 2 < hi := by omega
        have hmida : (lo + hi) / 2 < a.length := lt_of_lt_of_le hmid2 hhl
        rw [List.getD_eq_getElem a 0 hmida]
        by_cases hv : v < a[(lo + hi) / 2]
        · rw [if_pos hv]
          refine ih lo ((lo + hi) / 2) (by omega) (by omega) (by omega) h1 ?_
          intro i hge hia
          calc v < a[(lo + hi) / 2] := hv
            _ ≤ a[i] := by
              have := sorted_getD_mono hs hge hia
              rwa [List.getD_eq_getElem a 0 hmida, List.getD_eq_getElem a 0 hia] at this
        · rw [if_neg hv]
          refine ih ((lo + hi) / 2 + 1) hi (by omega) (by omega) hhl ?_ h2
          intro i hle hia
          have hile : i ≤ (lo + hi) / 2 := by omega
          calc a[i] ≤ a[(lo + hi) / 2] := by
                have := sorted_getD_mono hs hile hmida
                rwa [List.getD_eq_getElem a 0 hia, List.getD_eq_getElem a 0 hmida] at this
            _ ≤ v := not_lt.mp hv
      · rw [if_neg hlt]
        have hef : lo = hi := by omega
        subst hef
        refine (countP_eq_of_split a _ lo (le_trans hlh hhl) ?_ ?_).symm
        · intro i hik hia
          simpa using h1 i hik hia
        · intro i hik hia
          simp only [decide_eq_true_eq]
          exact not_le.mpr (h2 i (by omega) hia)

/-- On a sorted array, the right-biased binary search returns the
insertion index after all ties: the number of elements `≤ v`. -/
theorem searchsorted_right_eq_countP (a : List ℚ) (v : ℚ) (hs : a.Sorted (· ≤ ·)) :
    searchsorted_right a v = a.countP (fun x => decide (x ≤ v)) := by
  unfold searchsorted_right
  refine searchsortedRightGo_eq_countP a v hs a.length 0 a.length (by omega) (by omega)
    (le_refl _) ?_ ?_
  · intro i hik hia
    omega
  · intro i hik hia
    omega

/-- The Python integer round stays within the floor and its successor. -/
theorem pyRoundInt_bounds (x : ℚ) : ⌊x⌋ ≤ pyRoundInt x ∧ pyRoundInt x ≤ ⌊x⌋ + 1 := by
  unfold pyRoundInt
  split_ifs <;> omega

/-- round2 keeps [0, 1] fixed setwise. -/
theorem round2_mem_unit (x : ℚ) (h0 : 0 ≤ x) (h1 : x ≤ 1) :
    0 ≤ round2 x ∧ round2 x ≤ 1 := by
  have hb := pyRoundInt_bounds (x * 100)
  have hfl0 : (0 : ℤ) ≤ ⌊x * 100⌋ := Int.floor_nonneg.mpr (by positivity)
  have hup : (pyRoundInt (x * 100) : ℚ) ≤ 100 := by
    by_cases hc : ⌊x * 100⌋ = 100
    · have hfr : x * 100 - ⌊x * 100⌋ < 1 / 2 := by
        rw [hc]
        push_cast
        nlinarith
      unfold pyRoundInt
      rw [if_pos hfr, hc]
      norm_num
    · have h99 : ⌊x * 100⌋ ≤ 99 := by
        have : ⌊x * 100⌋ ≤ ⌊(100 : ℚ)⌋ := Int.floor_le_floor (by nlinarith)
        rw [show ⌊(100 : ℚ)⌋ = 100 by norm_num] at this
        omega
      have : pyRoundInt (x * 100) ≤ 100 := by omega
      exact_mod_cast this
  constructor
  · unfold round2
    apply div_nonneg _ (by norm_num)
    have : (0 : ℤ) ≤ pyRoundInt (x * 100) := by omega
    exact_mod_cast this
  · unfold round2
    rw [div_le_one (by norm_num)]
    exact hup

/-- The whole-raster Fahrenheit distribution is sorted. -/
theorem load_raster_distribution_f_sorted (pixels : List ℚ) :
    (load_raster_distribution_f pixels).Sorted (· ≤ ·) :=
  sortRat_sorted _

/-- The percentile of any value against a sorted nonempty distribution
lies in [0, 100]. -/
theorem percentile_from_distribution_bounds (v : ℚ) (dist : List ℚ)
    (hs : dist.Sorted (· ≤ ·)) (hne : dist ≠ []) :
    0 ≤ percentile_from_distribution v dist ∧ percentile_from_distribution v dist ≤ 100 := by
  unfold percentile_from_distribution
  have hlen : 0 < dist.length := List.length_pos.mpr hne
  have hidx : searchsorted_right dist v ≤ dist.length := by
    rw [searchsorted_right_eq_countP dist v hs]
    exact List.countP_le_length _
  constructor
  · positivity
  · have h1 : ((searchsorted_right dist v : ℕ) : ℚ) / ((dist.length : ℕ) : ℚ) ≤ 1 := by
      rw [div_le_one (by exact_mod_cast hlen)]
      exact_mod_cast hidx
    nlinarith

/-- C4: against the sorted whole-raster Fahrenheit distribution, the
binary search of percentile_from_distribution returns the right-biased
insertion index (the count of pixel values `≤ v`, i.e. after all ties),
the percentile is scaled to [0, 100] for a nonempty distribution, a
finite raw mean `v` receives index `round(1 - percentile/100, 2)`, and
a missing raw mean receives a missing index. -/
theorem C4_heat_percentile (pixels : List ℚ) (v : ℚ) :
    searchsorted_right (load_raster_distribution_f pixels) v
        = (load_raster_distribution_f pixels).countP (fun x => decide (x ≤ v))
    ∧ (load_raster_distribution_f pixels ≠ [] →
        0 ≤ percentile_from_distribution v (load_raster_distribution_f pixels)
        ∧ percentile_from_distribution v (load_raster_distribution_f pixels) ≤ 100)
    ∧ heat_index_of (heat_percentile (some v) (load_raster_distribution_f pixels))
        = some (round2
            (1 - percentile_from_distribution v (load_raster_distribution_f pixels) / 100))
    ∧ heat_index_of (heat_percentile none (load_raster_distribution_f pixels)) = none := by
  refine ⟨searchsorted_right_eq_countP _ v (load_raster_distribution_f_sorted pixels),
    ?_, rfl, rfl⟩
  intro hne
  exact percentile_from_distribution_bounds v _ (load_raster_distribution_f_sorted pixels) hne

/-- Witness for C4_heat_percentile at a two-pixel raster. -/
theorem C4_heat_percentile_witness :
    load_raster_distribution_f [290, 300] ≠ []
    ∧ 0 ≤ percentile_from_distribution 60 (load_raster_distribution_f [290, 300])
    ∧ percentile_from_distribution 60 (load_raster_distribution_f [290, 300]) ≤ 100 := by
  have hne : load_raster_distribution_f [290, 300] ≠ [] := by
    intro h
    have := congrArg List.length h
    rw [show (load_raster_distribution_f [290, 300]).length = 2 from by
      unfold load_raster_distribution_f
      rw [sortRat_length]
      rfl] at this
    simp at this
  have h := (C4_heat_percentile [290, 300] 60).2.1 hne
  exact ⟨hne, h.1, h.2⟩

/-! ### run_analysis structure lemmas -/

/-- run_analysis yields one output row per park. -/
theorem run_analysis_length (parks : List ParkInput) (pix : List ℚ)
    (fema storm : Raster) (t : String) :
    (run_analysis parks pix fema storm t).length = parks.length := by
  simp only [run_analysis]
  rw [List.length_zipWith, List.length_zip, List.length_zip, mmn_length, mmn_length,
    mmn_length]
  simp

/-- Each run_analysis row is composeRow applied to the park's inputs and
the row's entries of the three normalized columns. -/
theorem run_analysis_getElem (parks : List ParkInput) (pix : List ℚ)
    (fema storm : Raster) (t : String) (i : ℕ)
    (hi : i < (run_analysis parks pix fema storm t).length) :
    (run_analysis parks pix fema storm t).get ⟨i, hi⟩
      = composeRow (load_raster_distribution_f pix) fema storm t
          (parks.getD i default)
          ((min_max_normalize (parks.map (fun q => some q.EstInvTotal)) 5).getD i 0)
          ((min_max_normalize (parks.map (fun q => q.hvi_area)) 5).getD i 0)
          ((min_max_normalize (parks.map (fun q => q.flood_vuln)) 5).getD i 0) := by
  have hip : i < parks.length := by
    have h := hi
    rw [run_analysis_length] at h
    exact h
  have hinv : i < (min_max_normalize (parks.map (fun q => some q.EstInvTotal)) 5).length := by
    rw [mmn_length, List.length_map]
    exact hip
  have hhv : i < (min_max_normalize (parks.map (fun q => q.hvi_area)) 5).length := by
    rw [mmn_length, List.length_map]
    exact hip
  have hfv : i < (min_max_normalize (parks.map (fun q => q.flood_vuln)) 5).length := by
    rw [mmn_length, List.length_map]
    exact hip
  rw [List.get_eq_getElem]
  simp only [run_analysis]
  rw [List.getElem_zipWith, List.getElem_zip, List.getElem_zip]
  rw [List.getD_eq_getElem parks default hip, List.getD_eq_getElem _ 0 hinv,
    List.getD_eq_getElem _ 0 hhv, List.getD_eq_getElem _ 0 hfv]

/-- C3: each output row composes the fixed weighted formulas — coastal
index `1 − (0.15·c500 + 0.35·c100 + 0.5·tid)`, stormwater index
`1 − (0.3·shl + 0.7·dp)`, `hazard_factor = 0.25·Coastal + 0.50·Storm +
0.25·Heat`, `vul_factor = 0.50·HeatVuln + 0.50·FloodVuln`,
`suitability = 0.25·hazard + 0.25·vul + 0.50·(1 − Inv_Norm)`, with each
row's Inv_Norm drawn from min_max_normalize of the summed-investment
column. -/
theorem C3_composition (distribution : List ℚ) (fema storm : Raster) (t : String)
    (p : ParkInput) (inv hv fv : ℚ) :
    (composeRow distribution fema storm t p inv hv fv).CoastalFloodHaz
        = 1 - (0.15 * (process_site_flood p.floodSite fema storm t).Cst_500_nr
            + 0.35 * (process_site_flood p.floodSite fema storm t).Cst_100_nr
            + 0.5 * (process_site_flood p.floodSite fema storm t).StrmTid_nr)
    ∧ (composeRow distribution fema storm t p inv hv fv).StormFloodHaz
        = 1 - (0.3 * (process_site_flood p.floodSite fema storm t).StrmShl_nr
            + 0.7 * (process_site_flood p.floodSite fema storm t).StrmDp_nr)
    ∧ (∀ h, (composeRow distribution fema storm t p inv hv fv).HeatHaz = some h →
        (composeRow distribution fema storm t p inv hv fv).hazard_factor
          = some (0.25 * (composeRow distribution fema storm t p inv hv fv).CoastalFloodHaz
              + 0.50 * (composeRow distribution fema storm t p inv hv fv).StormFloodHaz
              + 0.25 * h))
    ∧ (composeRow distribution fema storm t p inv hv fv).vul_factor
        = 0.50 * hv + 0.50 * fv
    ∧ (∀ hf, (composeRow distribution fema storm t p inv hv fv).hazard_factor = some hf →
        (composeRow distribution fema storm t p inv hv fv).suitability
          = some (0.25 * hf
              + 0.25 * (composeRow distribution fema storm t p inv hv fv).vul_factor
              + 0.50 * (1 - inv)))
    ∧ (composeRow distribution fema storm t p inv hv fv).Inv_Norm = inv
    ∧ (∀ (parks : List ParkInput) (pix : List ℚ) (i : ℕ)
        (hi : i < (run_analysis parks pix fema storm t).length),
        (run_analysis parks pix fema storm t).get ⟨i, hi⟩
          = composeRow (load_raster_distribution_f pix) fema storm t
              (parks.getD i default)
              ((min_max_normalize (parks.map (fun q => some q.EstInvTotal)) 5).getD i 0)
              ((min_max_normalize (parks.map (fun q => q.hvi_area)) 5).getD i 0)
              ((min_max_normalize (parks.map (fun q => q.flood_vuln)) 5).getD i 0)) := by
  refine ⟨rfl, rfl, ?_, rfl, ?_, rfl,
    fun parks pix => run_analysis_getElem parks pix fema storm t⟩
  · intro h heq
    have heq2 : heat_index_of (heat_percentile p.heat_mean distribution) = some h := heq
    show hazard_factor_of HAZARD_FACTOR_WEIGHTS _ _ _ = _
    unfold hazard_factor_of
    rw [heq2]
    rfl
  · intro hf heq
    have heq2 : hazard_factor_of HAZARD_FACTOR_WEIGHTS
        (1 - coastal_raw_of defaultCoastalWeights (process_site_flood p.floodSite fema storm t))
        (1 - storm_raw_of defaultStormwaterWeights (process_site_flood p.floodSite fema storm t))
        (heat_index_of (heat_percentile p.heat_mean distribution)) = some hf := heq
    show suitability_of SUITABILITY_WEIGHTS _ _ _ = _
    unfold suitability_of
    rw [heq2]
    rfl

/-- Witness for C3_composition: a one-park run with a present heat mean,
exercising the hazard_factor and suitability formulas and the
row-indexing equation. -/
theorem C3_composition_witness :
    (composeRow (load_raster_distribution_f [290, 300]) ⟨some "E", [1]⟩ ⟨some "E", [3]⟩ "E"
        ⟨0, ⟨false, [true]⟩, some 300, some 3, none⟩ 0 0 0).HeatHaz
      = some (round2
          (1 - percentile_from_distribution 300 (load_raster_distribution_f [290, 300]) / 100))
    ∧ (composeRow (load_raster_distribution_f [290, 300]) ⟨some "E", [1]⟩ ⟨some "E", [3]⟩ "E"
        ⟨0, ⟨false, [true]⟩, some 300, some 3, none⟩ 0 0 0).hazard_factor
      = some (0.25 * (composeRow (load_raster_distribution_f [290, 300]) ⟨some "E", [1]⟩
            ⟨some "E", [3]⟩ "E" ⟨0, ⟨false, [true]⟩, some 300, some 3, none⟩ 0 0 0).CoastalFloodHaz
          + 0.50 * (composeRow (load_raster_distribution_f [290, 300]) ⟨some "E", [1]⟩
            ⟨some "E", [3]⟩ "E" ⟨0, ⟨false, [true]⟩, some 300, some 3, none⟩ 0 0 0).StormFloodHaz
          + 0.25 * round2
              (1 - percentile_from_distribution 300 (load_raster_distribution_f [290, 300]) / 100))
    ∧ (run_analysis [⟨0, ⟨false, [true]⟩, some 300, some 3, none⟩] [290, 300]
          ⟨some "E", [1]⟩ ⟨some "E", [3]⟩ "E").get
        ⟨0, by rw [run_analysis_length]; norm_num⟩
      = composeRow (load_raster_distribution_f [290, 300]) ⟨some "E", [1]⟩ ⟨some "E", [3]⟩ "E"
          (([⟨0, ⟨false, [true]⟩, some 300, some 3, none⟩] : List ParkInput).getD 0 default)
          ((min_max_normalize (([⟨0, ⟨false, [true]⟩, some 300, some 3, none⟩] :
              List ParkInput).map (fun q => some q.EstInvTotal)) 5).getD 0 0)
          ((min_max_normalize (([⟨0, ⟨false, [true]⟩, some 300, some 3, none⟩] :
              List ParkInput).map (fun q => q.hvi_area)) 5).getD 0 0)
          ((min_max_normalize (([⟨0, ⟨false, [true]⟩, some 300, some 3, none⟩] :
              List ParkInput).map (fun q => q.flood_vuln)) 5).getD 0 0) := by
  refine ⟨rfl, ?_, ?_⟩
  · exact (C3_composition (load_raster_distribution_f [290, 300]) ⟨some "E", [1]⟩
      ⟨some "E", [3]⟩ "E" ⟨0, ⟨false, [true]⟩, some 300, some 3, none⟩ 0 0 0).2.2.1 _ rfl
  · exact (C3_composition (load_raster_distribution_f [290, 300]) ⟨some "E", [1]⟩
      ⟨some "E", [3]⟩ "E" ⟨0, ⟨false, [true]⟩, some 300, some 3, none⟩ 0 0 0).2.2.2.2.2.2
      [⟨0, ⟨false, [true]⟩, some 300, some 3, none⟩] [290, 300] 0
      (by rw [run_analysis_length]; norm_num)

/-! ### Flood-fraction bounds -/

/-- Matching pixels inside the buffer never outnumber buffer pixels. -/
theorem countP_zip_le (m : List Bool) (a : List ℕ) (c : ℕ) :
    (m.zip a).countP (fun p => p.1 && decide (p.2 = c)) ≤ m.countP id := by
  induction m generalizing a with
  | nil => simp
  | cons b m' ih =>
      cases a with
      | nil =>
          simp only [List.zip_nil_right, List.countP_nil]
          exact Nat.zero_le _
      | cons x a' =>
          simp only [List.zip_cons_cons, List.countP_cons]
          refine Nat.add_le_add (ih a') ?_
          cases b
          · simp
          · simp only [Bool.true_and, id]
            split <;> norm_num

/-- Every class fraction lies in [0, 1]. -/
theorem classFrac_mem_unit (m : List Bool) (a : List ℕ) (c : ℕ) :
    0 ≤ classFrac m a c ∧ classFrac m a c ≤ 1 := by
  unfold classFrac
  by_cases hz : m.countP id = 0
  · rw [if_pos hz]
    norm_num
  · rw [if_neg hz]
    have hpos : (0 : ℚ) < (m.countP id : ℕ) := by
      have : 0 < m.countP id := Nat.pos_of_ne_zero hz
      exact_mod_cast this
    constructor
    · positivity
    · rw [div_le_one hpos]
      exact_mod_cast countP_zip_le m a c

/-- All five fields of a process_site_flood result lie in [0, 1]. -/
theorem process_site_flood_fields (site : FloodSite) (fema storm : Raster) (t : String) :
    ∀ x ∈ [(process_site_flood site fema storm t).Cst_500_nr,
        (process_site_flood site fema storm t).Cst_100_nr,
        (process_site_flood site fema storm t).StrmShl_nr,
        (process_site_flood site fema storm t).StrmDp_nr,
        (process_site_flood site fema storm t).StrmTid_nr],
      0 ≤ x ∧ x ≤ 1 := by
  intro x hx
  unfold process_site_flood at hx
  by_cases hg : site.geomEmpty
  · rw [if_pos hg] at hx
    simp only [zeroFracs] at hx
    simp at hx
    rw [hx]
    norm_num
  · rw [if_neg hg] at hx
    rcases hfe : read_raster_window fema t with e | fa
    · rw [hfe] at hx
      rcases hst : read_raster_window storm t with e2 | sa <;> rw [hst] at hx <;>
        simp only [zeroFracs] at hx <;> simp at hx <;> rw [hx] <;> norm_num
    · rw [hfe] at hx
      rcases hst : read_raster_window storm t with e2 | sa
      · rw [hst] at hx
        simp only [zeroFracs] at hx
        simp at hx
        rw [hx]
        norm_num
      · rw [hst] at hx
        simp only [List.mem_cons, List.not_mem_nil, or_false] at hx
        rcases hx with hx | hx | hx | hx | hx <;> rw [hx] <;>
          exact classFrac_mem_unit _ _ _

/-- The Fahrenheit distribution has one entry per raster pixel. -/
theorem load_raster_distribution_f_length (pixels : List ℚ) :
    (load_raster_distribution_f pixels).length = pixels.length := by
  unfold load_raster_distribution_f
  rw [sortRat_length, List.length_map]

set_option maxHeartbeats 2000000 in
/-- C5: for every park row of the output, each computed index — the
heat, coastal-flood and stormwater-flood hazard indices, the normalized
heat/flood vulnerability, Inv_Norm, hazard_factor, vul_factor and
suitability — lies in [0, 1] whenever it is not missing (the raw
mean-value fields are untouched by this claim). -/
theorem C5_output_indices_unit_interval (parks : List ParkInput) (pix : List ℚ)
    (fema storm : Raster) (t : String) (hd : pix ≠ []) :
    ∀ o ∈ run_analysis parks pix fema storm t,
      (∀ h, o.HeatHaz = some h → 0 ≤ h ∧ h ≤ 1)
      ∧ (0 ≤ o.CoastalFloodHaz ∧ o.CoastalFloodHaz ≤ 1)
      ∧ (0 ≤ o.StormFloodHaz ∧ o.StormFloodHaz ≤ 1)
      ∧ (0 ≤ o.HeatVuln ∧ o.HeatVuln ≤ 1)
      ∧ (0 ≤ o.FloodVuln ∧ o.FloodVuln ≤ 1)
      ∧ (0 ≤ o.Inv_Norm ∧ o.Inv_Norm ≤ 1)
      ∧ (∀ h, o.hazard_factor = some h → 0 ≤ h ∧ h ≤ 1)
      ∧ (0 ≤ o.vul_factor ∧ o.vul_factor ≤ 1)
      ∧ (∀ h, o.suitability = some h → 0 ≤ h ∧ h ≤ 1) := by
  have hdist : load_raster_distribution_f pix ≠ [] := by
    intro h
    have hlen := congrArg List.length h
    rw [load_raster_distribution_f_length] at hlen
    exact hd (List.length_eq_zero.mp (by simpa using hlen))
  intro o ho
  rw [List.mem_iff_get] at ho
  obtain ⟨⟨i, hi⟩, hoeq⟩ := ho
  have hip : i < parks.length := by
    have h2 := hi
    rw [run_analysis_length] at h2
    exact h2
  have hInv := mmn_mem_unit (parks.map (fun q => some q.EstInvTotal))
    5 (by norm_num) (by norm_num)
    ((min_max_normalize (parks.map (fun q => some q.EstInvTotal)) 5).getD i 0) (by
      rw [List.getD_eq_getElem _ 0 (by rw [mmn_length, List.length_map]; exact hip)]
      exact List.getElem_mem _)
  have hHv := mmn_mem_unit (parks.map (fun q => q.hvi_area))
    5 (by norm_num) (by norm_num)
    ((min_max_normalize (parks.map (fun q => q.hvi_area)) 5).getD i 0) (by
      rw [List.getD_eq_getElem _ 0 (by rw [mmn_length, List.length_map]; exact hip)]
      exact List.getElem_mem _)
  have hFv := mmn_mem_unit (parks.map (fun q => q.flood_vuln))
    5 (by norm_num) (by norm_num)
    ((min_max_normalize (parks.map (fun q => q.flood_vuln)) 5).getD i 0) (by
      rw [List.getD_eq_getElem _ 0 (by rw [mmn_length, List.length_map]; exact hip)]
      exact List.getElem_mem _)
  have hoe : o = composeRow (load_raster_distribution_f pix) fema storm t
      (parks.getD i default)
      ((min_max_normalize (parks.map (fun q => some q.EstInvTotal)) 5).getD i 0)
      ((min_max_normalize (parks.map (fun q => q.hvi_area)) 5).getD i 0)
      ((min_max_normalize (parks.map (fun q => q.flood_vuln)) 5).getD i 0) := by
    rw [← hoeq]
    exact run_analysis_getElem parks pix fema storm t i hi
  subst hoe
  set D := load_raster_distribution_f pix with hD
  set P := parks.getD i default with hP
  set INV := (min_max_normalize (parks.map (fun q => some q.EstInvTotal)) 5).getD i 0 with hI
  set HV := (min_max_normalize (parks.map (fun q => q.hvi_area)) 5).getD i 0 with hH
  set FV := (min_max_normalize (parks.map (fun q => q.flood_vuln)) 5).getD i 0 with hV
  have hDs : D.Sorted (· ≤ ·) := load_raster_distribution_f_sorted pix
  have hfr := process_site_flood_fields P.floodSite fema storm t
  set F := process_site_flood P.floodSite fema storm t with hF
  have h500 := hfr F.Cst_500_nr (by simp)
  have h100 := hfr F.Cst_100_nr (by simp)
  have hshl := hfr F.StrmShl_nr (by simp)
  have hdp := hfr F.StrmDp_nr (by simp)
  have htid := hfr F.StrmTid_nr (by simp)
  have hcB : 0 ≤ 1 - coastal_raw_of defaultCoastalWeights F
      ∧ 1 - coastal_raw_of defaultCoastalWeights F ≤ 1 := by
    rw [show coastal_raw_of defaultCoastalWeights F
      = 0.15 * F.Cst_500_nr + 0.35 * F.Cst_100_nr + 0.5 * F.StrmTid_nr from rfl]
    constructor <;> nlinarith [h500.1, h500.2, h100.1, h100.2, htid.1, htid.2]
  have hsB : 0 ≤ 1 - storm_raw_of defaultStormwaterWeights F
      ∧ 1 - storm_raw_of defaultStormwaterWeights F ≤ 1 := by
    rw [show storm_raw_of defaultStormwaterWeights F
      = 0.3 * F.StrmShl_nr + 0.7 * F.StrmDp_nr from rfl]
    constructor <;> nlinarith [hshl.1, hshl.2, hdp.1, hdp.2]
  have hheat : ∀ h, heat_index_of (heat_percentile P.heat_mean D) = some h →
      0 ≤ h ∧ h ≤ 1 := by
    intro h hh
    rcases hm : P.heat_mean with _ | v
    · rw [hm] at hh
      exact absurd hh (by simp [heat_percentile, heat_index_of])
    · rw [hm] at hh
      simp only [heat_percentile, heat_index_of, Option.map_some'] at hh
      have hpct := percentile_from_distribution_bounds v D hDs hdist
      have hr := round2_mem_unit
        (1 - percentile_from_distribution v D / 100)
        (by linarith [hpct.2]) (by linarith [hpct.1])
      have hh2 : round2 (1 - percentile_from_distribution v D / 100) = h := by
        injection hh
      rw [← hh2]
      exact hr
  have hhaz : ∀ h, hazard_factor_of HAZARD_FACTOR_WEIGHTS
      (1 - coastal_raw_of defaultCoastalWeights F)
      (1 - storm_raw_of defaultStormwaterWeights F)
      (heat_index_of (heat_percentile P.heat_mean D)) = some h → 0 ≤ h ∧ h ≤ 1 := by
    intro h hh
    unfold hazard_factor_of at hh
    rw [Option.map_eq_some'] at hh
    obtain ⟨hh0, hhm, hhe⟩ := hh
    have hb := hheat hh0 hhm
    rw [← hhe]
    rw [show HAZARD_FACTOR_WEIGHTS.CoastalFloodHaz = 0.25 from rfl,
      show HAZARD_FACTOR_WEIGHTS.StormFloodHaz = 0.50 from rfl,
      show HAZARD_FACTOR_WEIGHTS.HeatHaz = 0.25 from rfl]
    constructor <;> nlinarith [hcB.1, hcB.2, hsB.1, hsB.2, hb.1, hb.2]
  have hvul : 0 ≤ vul_factor_of VULNERABILITY_FACTOR_WEIGHTS HV FV
      ∧ vul_factor_of VULNERABILITY_FACTOR_WEIGHTS HV FV ≤ 1 := by
    rw [show vul_factor_of VULNERABILITY_FACTOR_WEIGHTS HV FV
      = 0.50 * HV + 0.50 * FV from rfl]
    constructor <;> nlinarith [hHv.1, hHv.2, hFv.1, hFv.2]
  have hsuit : ∀ h, suitability_of SUITABILITY_WEIGHTS
      (hazard_factor_of HAZARD_FACTOR_WEIGHTS
        (1 - coastal_raw_of defaultCoastalWeights F)
        (1 - storm_raw_of defaultStormwaterWeights F)
        (heat_index_of (heat_percentile P.heat_mean D)))
      (vul_factor_of VULNERABILITY_FACTOR_WEIGHTS HV FV) INV = some h →
      0 ≤ h ∧ h ≤ 1 := by
    intro h hh
    unfold suitability_of at hh
    rw [Option.map_eq_some'] at hh
    obtain ⟨hf0, hfm, hfe⟩ := hh
    have hfb := hhaz hf0 hfm
    rw [← hfe]
    rw [show SUITABILITY_WEIGHTS.hazard_factor = 0.25 from rfl,
      show SUITABILITY_WEIGHTS.vul_factor = 0.25 from rfl,
      show SUITABILITY_WEIGHTS.Inv_Norm = 0.50 from rfl]
    constructor <;> nlinarith [hfb.1, hfb.2, hvul.1, hvul.2, hInv.1, hInv.2]
  exact ⟨hheat, hcB, hsB, hHv, hFv, hInv, hhaz, hvul, hsuit⟩

/-- Witness for C5_output_indices_unit_interval: the first output row of
a one-park run has CoastalFloodHaz and vul_factor inside [0, 1]. -/
theorem C5_output_indices_unit_interval_witness :
    ([290, 300] : List ℚ) ≠ []
    ∧ (0 ≤ ((run_analysis [⟨0, ⟨false, [true]⟩, some 300, some 3, none⟩] [290, 300]
          ⟨some "E", [1]⟩ ⟨some "E", [3]⟩ "E").get
        ⟨0, by rw [run_analysis_length]; norm_num⟩).CoastalFloodHaz
      ∧ ((run_analysis [⟨0, ⟨false, [true]⟩, some 300, some 3, none⟩] [290, 300]
          ⟨some "E", [1]⟩ ⟨some "E", [3]⟩ "E").get
        ⟨0, by rw [run_analysis_length]; norm_num⟩).CoastalFloodHaz ≤ 1)
    ∧ (0 ≤ ((run_analysis [⟨0, ⟨false, [true]⟩, some 300, some 3, none⟩] [290, 300]
          ⟨some "E", [1]⟩ ⟨some "E", [3]⟩ "E").get
        ⟨0, by rw [run_analysis_length]; norm_num⟩).vul_factor
      ∧ ((run_analysis [⟨0, ⟨false, [true]⟩, some 300, some 3, none⟩] [290, 300]
          ⟨some "E", [1]⟩ ⟨some "E", [3]⟩ "E").get
        ⟨0, by rw [run_analysis_length]; norm_num⟩).vul_factor ≤ 1) := by
  have hne : ([290, 300] : List ℚ) ≠ [] := by simp
  have hmem : ((run_analysis [⟨0, ⟨false, [true]⟩, some 300, some 3, none⟩] [290, 300]
        ⟨some "E", [1]⟩ ⟨some "E", [3]⟩ "E").get
      ⟨0, by rw [run_analysis_length]; norm_num⟩)
      ∈ run_analysis [⟨0, ⟨false, [true]⟩, some 300, some 3, none⟩] [290, 300]
        ⟨some "E", [1]⟩ ⟨some "E", [3]⟩ "E" :=
    List.get_mem _ _ _
  have h := C5_output_indices_unit_interval
    [⟨0, ⟨false, [true]⟩, some 300, some 3, none⟩] [290, 300]
    ⟨some "E", [1]⟩ ⟨some "E", [3]⟩ "E" hne _ hmem
  exact ⟨hne, h.2.1, h.2.2.2.2.2.2.2.1⟩

end ParksCensus
